import Mathlib

/-!
# Verification of the AIvilization agent-orchestration core

Shallow embedding of the Python sources under `src/aivilization/` (sandbox
path confinement, tool registry, agent tool dispatch, delegation protocol,
conversation memory compaction, agent creation, persistence round trip, and
the toolification skeleton extraction), together with theorems settling the
specification claims about them.

Python dictionaries are modelled as association lists with Python `dict`
semantics: assignment to an existing key replaces the value in place,
assignment to a fresh key appends, `del` removes the entry.
-/

deriving instance DecidableEq for Except

namespace AIvilization

/-- Python dict lookup `d.get(k)`. -/
def dictGet (d : List (String × β)) (k : String) : Option β :=
  match d with
  | [] => none
  | (k', v) :: rest => if k' = k then some v else dictGet rest k

/-- Python dict assignment `d[k] = v`: replace in place if the key exists,
append otherwise. -/
def dictSet (d : List (String × β)) (k : String) (v : β) : List (String × β) :=
  match d with
  | [] => [(k, v)]
  | (k', v') :: rest => if k' = k then (k, v) :: rest else (k', v') :: dictSet rest k v

/-- Python `del d[k]` (removes the entry with key `k`, if present). -/
def dictDel (d : List (String × β)) (k : String) : List (String × β) :=
  match d with
  | [] => []
  | (k', v') :: rest => if k' = k then rest else (k', v') :: dictDel rest k

/-- Python `k in d`. -/
def dictHas (d : List (String × β)) (k : String) : Bool :=
  (dictGet d k).isSome

/-- Python `list(d.values())`. -/
def dictValues (d : List (String × β)) : List β := d.map (·.2)

/-! ## Sandbox path confinement (`core/sandbox.py`, `read_file` / `write_file`)

Both operations run the same two lines before touching the container:

    if not path.startswith("/"):
        path = f"/workspace/{path}"
    if not path.startswith("/workspace"):
        raise PermissionError(...)
-/

/-- Python `s.startswith(p)`, on character lists so that it evaluates inside
the kernel. -/
def startswith : List Char → List Char → Bool
  | _, [] => true
  | [], _ :: _ => false
  | c :: s, p :: ps => if c = p then startswith s ps else false

/-- Python `s.split(sep)` for a one-character separator: `"/a".split("/")`
is `["", "a"]`. -/
def splitChar (sep : Char) : List Char → List (List Char)
  | [] => [[]]
  | c :: rest =>
    match splitChar sep rest with
    | [] => [[]]
    | g :: gs => if c = sep then [] :: g :: gs else (c :: g) :: gs

namespace SandboxManager

/-- The path rewriting done by `read_file`/`write_file`: a relative path is
prefixed with `/workspace/`. -/
def effectivePath (path : List Char) : List Char :=
  if startswith path "/".data then path else "/workspace/".data ++ path

/-- The confinement check of `read_file`/`write_file`: the effective path must
start with the literal text `/workspace`; `true` means the operation proceeds,
`false` means `PermissionError` is raised. -/
def pathAllowed (path : List Char) : Bool :=
  startswith (effectivePath path) "/workspace".data

/-- POSIX-style resolution of an absolute path: split on `/`, drop empty and
`.` components, let `..` pop the previous component.  This is the spec-side
notion of where a path "resolves" to. -/
def resolvedComponents (path : List Char) : List (List Char) :=
  (splitChar '/' path).foldl
    (fun acc comp =>
      if comp = [] ∨ comp = ".".data then acc
      else if comp = "..".data then acc.dropLast
      else acc ++ [comp])
    []

/-- The spec-side property: the path resolves to a location inside the
confined root `/workspace` (the root itself included). -/
def resolvesInsideWorkspace (path : List Char) : Bool :=
  match resolvedComponents path with
  | w :: _ => w = "workspace".data
  | _ => false

end SandboxManager

/-! ## Conversation memory compaction (`core/memory.py`) -/

/-- Python negative-index slice `l[-m:]`.  For `m = 0` this is `l[0:]`, i.e.
the whole list — the slicing corner case relevant to window size 0. -/
def pyTailSlice (m : Nat) (l : List α) : List α :=
  if m = 0 then l else l.drop (l.length - m)

namespace AgentMemory

/-- `AgentMemory._compact_history`: when more than `max + 2` turns are stored,
keep `history[:2] + history[-max:]`. -/
def compact_history (maxTurns : Nat) (h : List α) : List α :=
  if maxTurns + 2 < h.length then h.take 2 ++ pyTailSlice maxTurns h else h

/-- `AgentMemory.add_conversation_turn`: append the turn, then compact once the
stored count exceeds `max * 2`. -/
def add_conversation_turn (maxTurns : Nat) (h : List α) (t : α) : List α :=
  let h' := h ++ [t]
  if maxTurns * 2 < h'.length then compact_history maxTurns h' else h'

/-- The stored conversation history after adding the turns `ts` in order,
starting from an empty history. -/
def conversationAfter (maxTurns : Nat) (ts : List α) : List α :=
  ts.foldl (add_conversation_turn maxTurns) []

end AgentMemory

/-- The last `n` elements of a list (the "most recent `n` turns" of the
claim). -/
def lastN (n : Nat) (l : List α) : List α := l.drop (l.length - n)

/-! ## Tool registry (`core/tool.py`, `tools/registry.py`)

`ToolRegistry` keeps two dicts that alias the *same* mutable
`ToolDefinition` objects (`_tools` by id, `_tools_by_name` by name), a dict
of bound handlers by name, and an append-only execution log.  An in-place
mutation of a definition is therefore modelled by rewriting every dict entry
whose value carries the mutated object's id (`dictMutate`). -/

/-- `ToolScope` (`core/tool.py`).  `private` is a Lean keyword, hence
`priv`. -/
inductive ToolScope
  | builtin
  | shared
  | priv
deriving DecidableEq, Repr

/-- `ToolDefinition` (`core/tool.py`), restricted to the fields the claims
are about.  `id` stands for the generated uuid; `input_schema`, tags,
timestamps and toolification provenance are opaque to every claim and
omitted. -/
structure ToolDefinition where
  id : String
  name : String
  description : String
  scope : ToolScope
  created_by_agent_id : Option String := none
  source_code : Option String := none
  version : Nat := 1
  usage_count : Nat := 0
deriving DecidableEq, Repr

/-- `ToolExecutionRecord` (`core/tool.py`); `duration_ms` and `timestamp`
are wall-clock and omitted. -/
structure ToolExecutionRecord where
  tool_name : String
  agent_id : String
  input_params : String
  output : String
  success : Bool
deriving DecidableEq, Repr

/-- Python truthiness of an optional string (`if tool_def.source_code:`):
`None` and the empty string are falsy. -/
def truthyStr : Option String → Bool
  | none => false
  | some s => s ≠ ""

/-- In-place mutation of the `ToolDefinition` object whose id is `tid`: every
dict entry referencing that object now shows the new value; no entry is added
or removed. -/
def dictMutate (d : List (String × ToolDefinition)) (tid : String)
    (t' : ToolDefinition) : List (String × ToolDefinition) :=
  match d with
  | [] => []
  | (k, v) :: rest =>
    (k, if v.id = tid then t' else v) :: dictMutate rest tid t'

/-- The mutable state of a `ToolRegistry`. -/
structure RegState where
  tools : List (String × ToolDefinition)
  tools_by_name : List (String × ToolDefinition)
  handlers : List (String × String)
  execution_log : List ToolExecutionRecord
deriving DecidableEq, Repr

/-- The field changes accepted by `ToolRegistry.update` (the `updates` dict;
`execute_edit_tool` forwards at most `name`, `description`, `input_schema`
and `source_code`, dropping `None` values). -/
structure ToolUpdates where
  name : Option String := none
  description : Option String := none
  source_code : Option String := none

namespace ToolRegistry

/-- The names of the ten builtin tools (`tools/builtin.py`, `BUILTIN_TOOLS`),
in registration order. -/
def builtinNames : List String :=
  ["create_agent", "delegate_task", "broadcast", "create_tool", "edit_tool",
   "delete_tool", "sandbox", "evolve", "query_civilization", "form_alliance"]

/-- `_register_builtins`: each builtin gets a `ToolDefinition` with scope
`BUILTIN` and no owner, and its handler is bound.  The generated uuid is
modelled by the (distinct) name itself. -/
def registerBuiltins (st : RegState) : RegState :=
  builtinNames.foldl
    (fun st name =>
      let d : ToolDefinition := { id := name, name := name, description := name,
                                  scope := .builtin }
      { st with tools := dictSet st.tools d.id d,
                tools_by_name := dictSet st.tools_by_name name d,
                handlers := dictSet st.handlers name ("builtin:" ++ name) })
    st

/-- `ToolRegistry.__init__`. -/
def init : RegState :=
  registerBuiltins { tools := [], tools_by_name := [], handlers := [],
                     execution_log := [] }

/-- `ToolRegistry.register`. -/
def register (st : RegState) (d : ToolDefinition) : Except String RegState :=
  if dictHas st.tools_by_name d.name then
    .error ("Tool '" ++ d.name ++ "' already exists.")
  else
    .ok { st with
          tools := dictSet st.tools d.id d,
          tools_by_name := dictSet st.tools_by_name d.name d,
          handlers := if truthyStr d.source_code then
                        dictSet st.handlers d.name d.id
                      else st.handlers }

/-- The `setattr` loop of `ToolRegistry.update` (all three keys are
attributes of `ToolDefinition`). -/
def applyUpdates (t : ToolDefinition) (u : ToolUpdates) : ToolDefinition :=
  { t with name := u.name.getD t.name,
           description := u.description.getD t.description,
           source_code := match u.source_code with
                          | some s => some s
                          | none => t.source_code }

/-- `ToolRegistry.update`. -/
def update (st : RegState) (tool_id : String) (u : ToolUpdates)
    (requesting_agent_id : String) : Except String (ToolDefinition × RegState) :=
  match dictGet st.tools tool_id with
  | none => .error ("No tool found with id '" ++ tool_id ++ "'.")
  | some tool =>
    if tool.scope = .builtin then
      .error "Cannot edit built-in tools."
    else if tool.scope = .priv ∧ tool.created_by_agent_id ≠ some requesting_agent_id then
      .error "Cannot edit another agent's private tool."
    else
      let old_name := tool.name
      let tool' := { applyUpdates tool u with version := tool.version + 1 }
      -- both dicts alias the mutated object
      let tools' := dictMutate st.tools tool_id tool'
      let by_name' := dictMutate st.tools_by_name tool_id tool'
      let renamed : Bool := match u.name with
                            | some n => decide (n ≠ old_name)
                            | none => false
      let by_name'' := if renamed then
                         dictSet (dictDel by_name' old_name) tool'.name tool'
                       else by_name'
      let handlers' := if renamed && dictHas st.handlers old_name then
                         match dictGet st.handlers old_name with
                         | some h => dictSet (dictDel st.handlers old_name) tool'.name h
                         | none => st.handlers
                       else st.handlers
      let handlers'' := if u.source_code.isSome ∧ truthyStr tool'.source_code then
                          dictSet handlers' tool'.name tool_id
                        else handlers'
      .ok (tool', { st with tools := tools', tools_by_name := by_name'',
                            handlers := handlers'' })

/-- `ToolRegistry.delete`.  Returns the deleted tool's name. -/
def delete (st : RegState) (tool_id : String) (requesting_agent_id : String) :
    Except String (String × RegState) :=
  match dictGet st.tools tool_id with
  | none => .error ("No tool found with id '" ++ tool_id ++ "'.")
  | some tool =>
    if tool.scope = .builtin then
      .error "Cannot delete built-in tools."
    else if tool.scope = .priv ∧ tool.created_by_agent_id ≠ some requesting_agent_id then
      .error "Cannot delete another agent's private tool."
    else
      let name := tool.name
      .ok (name, { st with
                   tools := dictDel st.tools tool_id,
                   tools_by_name := dictDel st.tools_by_name name,
                   handlers := if dictHas st.handlers name then
                                 dictDel st.handlers name
                               else st.handlers })

/-- `ToolRegistry.execute`.  The bound handler is an arbitrary effectful
computation; its outcome (return value or raised exception) is passed in as
`handlerOutcome`.  The returned `Except` is the call's own outcome: `.error`
models the re-raised `RuntimeError` (or the `ValueError` when no handler is
bound), and the state carries the log entry and usage bump performed before
re-raising. -/
def execute (st : RegState) (tool_name agent_id : String)
    (tool_input : String) (handlerOutcome : Except String String) :
    Except String String × RegState :=
  if ¬ dictHas st.handlers tool_name then
    (.error ("No handler registered for tool '" ++ tool_name ++ "'."), st)
  else
    let success := match handlerOutcome with | .ok _ => true | .error _ => false
    let result := match handlerOutcome with | .ok s => s | .error e => e
    let record : ToolExecutionRecord :=
      { tool_name := tool_name, agent_id := agent_id,
        input_params := tool_input,
        output := String.mk (result.data.take 1000), success := success }
    let st' := { st with execution_log := st.execution_log ++ [record] }
    let st'' := match dictGet st'.tools_by_name tool_name with
                | some t =>
                  let t' := { t with usage_count := t.usage_count + 1 }
                  { st' with tools := dictMutate st'.tools t.id t',
                             tools_by_name := dictMutate st'.tools_by_name t.id t' }
                | none => st'
    (if success then .ok result else .error result, st'')

end ToolRegistry

/-- A `tool_result` content block as produced by `Agent._execute_tool`
(`core/agent.py`). -/
structure ToolResult where
  tool_use_id : String
  content : String
  is_error : Bool
deriving DecidableEq, Repr

/-- `Agent._execute_tool`: runs one tool call through the registry and always
returns a `tool_result` block — an exception from `ToolRegistry.execute` is
caught and converted into a block with `is_error = True`. -/
def Agent.execute_tool (st : RegState) (tool_name agent_id : String)
    (tool_input tool_use_id : String) (handlerOutcome : Except String String) :
    ToolResult × RegState :=
  match ToolRegistry.execute st tool_name agent_id tool_input handlerOutcome with
  | (.ok r, st') =>
    ({ tool_use_id := tool_use_id, content := r, is_error := false }, st')
  | (.error e, st') =>
    ({ tool_use_id := tool_use_id,
       content := "Error executing tool '" ++ tool_name ++ "': " ++ e,
       is_error := true }, st')

/-! ## Delegation protocol (`tools/builtin.py`, `execute_delegate_task`)

The decision loop of `Agent.process_message` is driven by the external
inference oracle; what the claims constrain is only the delegation plumbing.
The oracle is therefore modelled as a fixed behaviour script per agent: when
an agent's loop runs, it performs its scripted actions in order (delegations
and, to model handler exceptions, outright failures) and answers with its
collected results.  `entries` counts how many times each agent's decision
loop (`process_message`) has been entered. -/

/-- One scripted step of an agent's decision loop. -/
inductive AgentAction
  | delegate (target : String)
  | raiseError (msg : String)
deriving DecidableEq, Repr

/-- The delegation-relevant runtime state: the live agent ids, each agent's
in-flight `_delegation_chain`, and how often each decision loop was
entered. -/
structure DelegationState where
  agents : List String
  chains : List (String × List String)
  entries : List (String × Nat)
deriving DecidableEq, Repr

namespace DelegationState

/-- `getattr(agent, "_delegation_chain", [])`. -/
def chainOf (st : DelegationState) (a : String) : List String :=
  (dictGet st.chains a).getD []

def setChain (st : DelegationState) (a : String) (c : List String) :
    DelegationState :=
  { st with chains := dictSet st.chains a c }

def entriesOf (st : DelegationState) (a : String) : Nat :=
  (dictGet st.entries a).getD 0

def bumpEntries (st : DelegationState) (a : String) : DelegationState :=
  { st with entries := dictSet st.entries a (st.entriesOf a + 1) }

end DelegationState

/-- The cycle error string of `execute_delegate_task`:
`"Error: delegation cycle detected. Chain: " + " -> ".join(chain) + " -> " + target`. -/
def cycleErrorMsg (chain : List String) (target : String) : String :=
  "Error: delegation cycle detected. Chain: " ++
    String.intercalate " -> " chain ++ " -> " ++ target

/-- `execute_delegate_task`, parametric in the loop of the target
(`processFn`): look up the target, check the *caller's* delegation chain for
a cycle, propagate `chain + [caller]` to the target for the duration of its
`process_message`, and clear the target's chain in a `finally` block.  Cycle
and unknown-target conditions are *returned* as error strings (tool
results), while an exception from the target's loop propagates (after the
`finally`). -/
def delegate_core
    (processFn : String → DelegationState →
      Except String String × DelegationState)
    (caller target : String) (st : DelegationState) :
    Except String String × DelegationState :=
  if target ∉ st.agents then
    (.ok ("Error: no agent found with id '" ++ target ++ "'."), st)
  else
    let chain := st.chainOf caller
    if target ∈ chain then
      (.ok (cycleErrorMsg chain target), st)
    else
      let st1 := st.setChain target (chain ++ [caller])
      match processFn target st1 with
      | (.ok resp, st2) =>
        (.ok ("Response from '" ++ target ++ "':\n" ++ resp),
         st2.setChain target [])
      | (.error e, st2) => (.error e, st2.setChain target [])

/-- Runs the scripted actions of one decision-loop pass in order; a
`raiseError` aborts the pass with an exception. -/
def runActions
    (delegateFn : String → String → DelegationState →
      Except String String × DelegationState)
    (self : String) (st : DelegationState) :
    List AgentAction → Except String (List String) × DelegationState
  | [] => (.ok [], st)
  | .raiseError m :: _ => (.error m, st)
  | .delegate tgt :: rest =>
    match delegateFn self tgt st with
    | (.ok r, st') =>
      match runActions delegateFn self st' rest with
      | (.ok rs, st'') => (.ok (r :: rs), st'')
      | (.error e, st'') => (.error e, st'')
    | (.error e, st') => (.error e, st')

/-- `Agent.process_message`, reduced to its delegation-relevant skeleton:
enter the loop (count it), run the scripted actions (delegations dispatch
through `delegate_core` at one fuel less), answer with the line-joined
results.  `fuel` bounds the recursion depth; every claim scenario stays far
below it. -/
def process_message (env : String → List AgentAction) :
    Nat → String → DelegationState →
      Except String String × DelegationState
  | 0, _, st => (.ok "(out of fuel)", st)
  | fuel + 1, self, st =>
    let st1 := st.bumpEntries self
    match runActions (delegate_core (process_message env fuel)) self st1
        (env self) with
    | (.ok results, st2) => (.ok (String.intercalate "\n" results), st2)
    | (.error e, st2) => (.error e, st2)

/-- `execute_delegate_task` with the target's decision loop run at the given
fuel. -/
def execute_delegate_task (env : String → List AgentAction) (fuel : Nat)
    (caller target : String) (st : DelegationState) :
    Except String String × DelegationState :=
  delegate_core (process_message env fuel) caller target st

/-! ## Civilization orchestrator (`core/civilization.py`, `core/agent.py`)

`AgentState` is restricted to the fields the claims are about (the knowledge
map is the only part of `AgentMemory` that claim C9 names). -/

/-- The claim-relevant slice of `AgentState`. -/
structure AgentState where
  id : String
  name : String := ""
  role : String := ""
  created_by : Option String := none
  depth : Nat := 0
  knowledge : List (String × String) := []
deriving DecidableEq, Repr

/-- `Alliance` (`core/civilization.py`). -/
structure Alliance where
  id : String
  name : String
  purpose : String := ""
  agent_ids : List String := []
  created_by : String := ""
deriving DecidableEq, Repr

/-- A `Civilization` together with its config limits.  `agents` models
`civ._agents` (id → live agent, holding the state), `state_agent_states`
models `civ._state.agent_states`, `alliances` models `civ._alliances`. -/
structure Civilization where
  max_agents : Nat
  max_agent_depth : Nat
  agents : List (String × AgentState)
  state_agent_states : List (String × AgentState)
  alliances : List (String × Alliance)
  registry : RegState
deriving DecidableEq, Repr

namespace Civilization

/-- `Civilization.create_agent`: builds the state, stores the agent under its
id in both `_agents` and `_state.agent_states`, with the given creator and
depth (no checks here — those live in the `create_agent` tool). -/
def create_agent (civ : Civilization) (id name role : String)
    (created_by : Option String) (depth : Nat) : Civilization × AgentState :=
  let st : AgentState := { id := id, name := name, role := role,
                           created_by := created_by, depth := depth }
  ({ civ with agents := dictSet civ.agents id st,
              state_agent_states := dictSet civ.state_agent_states id st },
   st)

end Civilization

/-- `execute_create_agent` (`tools/builtin.py`): refuse when the population
cap is reached or the creator's depth has reached `max_agent_depth`
(returning an error string, creating nothing); otherwise create the child at
`creator.depth + 1`.  `id` stands for the fresh uuid of the new agent. -/
def execute_create_agent (civ : Civilization) (creator : AgentState)
    (id name role : String) : Option AgentState × Civilization :=
  if civ.max_agents ≤ civ.agents.length then (none, civ)
  else if civ.max_agent_depth ≤ creator.depth then (none, civ)
  else
    let (civ', a) := civ.create_agent id name role (some creator.id)
      (creator.depth + 1)
    (some a, civ')

/-- The civilizations reachable from `init` by agents invoking the
`create_agent` tool: at each step the creator is a live agent of the current
civilization. -/
inductive ReachableByCreate (init : Civilization) : Civilization → Prop
  | refl : ReachableByCreate init init
  | step (c : Civilization) (creatorId : String) (creator : AgentState)
      (id name role : String) :
      ReachableByCreate init c →
      dictGet c.agents creatorId = some creator →
      ReachableByCreate init (execute_create_agent c creator id name role).2

/-! ## Persistence (`core/civilization.py` `save`/`load`,
`storage/json_store.py`)

The JSON encoding itself is the external persistence contract; `save` and
`load` are modelled down to the aggregate `CivilizationState` structure that
is serialized. -/

/-- The non-builtin tool definitions stored in a registry (what
`Civilization.save` dumps). -/
def nonBuiltinTools (r : RegState) : List ToolDefinition :=
  (dictValues r.tools).filter (fun t => t.scope ≠ .builtin)

/-- The claim-relevant slice of the serialized `CivilizationState`. -/
structure CivilizationState where
  agent_states : List (String × AgentState)
  tool_definitions : List ToolDefinition
  alliances : List Alliance
deriving DecidableEq, Repr

namespace Civilization

/-- `Civilization.save`: refresh `_state` — the non-builtin tool dumps, the
alliance dumps, and an upsert of every live agent's state — and hand the
aggregate to the store. -/
def save (civ : Civilization) : CivilizationState :=
  { agent_states :=
      civ.agents.foldl (fun m p => dictSet m p.1 p.2) civ.state_agent_states,
    tool_definitions := nonBuiltinTools civ.registry,
    alliances := dictValues civ.alliances }

/-- `Civilization.load`: rebuild the agents dict from `agent_states`,
re-register every saved tool into a fresh registry (silently skipping name
conflicts, as the `try/except ValueError: pass` does), and rebuild the
alliances dict keyed by alliance id. -/
def load (max_agents max_agent_depth : Nat) (saved : CivilizationState) :
    Civilization :=
  { max_agents := max_agents,
    max_agent_depth := max_agent_depth,
    agents := saved.agent_states.foldl (fun m p => dictSet m p.1 p.2) [],
    state_agent_states := saved.agent_states,
    alliances := saved.alliances.foldl (fun m a => dictSet m a.id a) [],
    registry := saved.tool_definitions.foldl
      (fun r d => match ToolRegistry.register r d with
                  | .ok r' => r'
                  | .error _ => r)
      ToolRegistry.init }

end Civilization

/-! ## Toolification skeleton extraction
(`tools/toolification.py`, `ToolificationEngine._extract_skeleton`)

    skeleton = re.sub(r'"[^"]*"', '"<STR>"', code)
    skeleton = re.sub(r"'[^']*'", "'<STR>'", skeleton)
    skeleton = re.sub(r"\b\d+\.?\d*\b", "<NUM>", skeleton)
    skeleton = re.sub(r"\s+", " ", skeleton).strip()

Each `re.sub` is embedded as a left-to-right scanner with exactly Python's
leftmost/greedy matching (including the backtracking of `\.?\d*` against the
trailing `\b`); the embeddings were cross-checked against CPython's `re` on
the corner cases (`1.5e3`, `3.x`, `0x1F`, `x1.5`, `1.2.3`, …). -/

namespace ToolificationEngine

/-- Scanner for `re.sub(q[^q]*q, q<STR>q, s)`: outside state `none`, inside
state `some acc` holding the (reversed) pending content.  Quotes pair up
leftmost-greedily; a dangling final quote and the text after it are kept
verbatim, as an unmatched `re` position is. -/
def subQuoteAux (q : Char) (ph : List Char) :
    Option (List Char) → List Char → List Char
  | none, [] => []
  | none, c :: rest =>
    if c = q then subQuoteAux q ph (some []) rest
    else c :: subQuoteAux q ph none rest
  | some acc, [] => q :: acc.reverse
  | some acc, c :: rest =>
    if c = q then (q :: ph ++ [q]) ++ subQuoteAux q ph none rest
    else subQuoteAux q ph (some (c :: acc)) rest

/-- One string-literal substitution pass. -/
def sub_quote (q : Char) (ph : List Char) (s : List Char) : List Char :=
  subQuoteAux q ph none s

/-- Python's `\w` on the ASCII fragments at hand. -/
def isWordChar (c : Char) : Bool := c.isAlpha || c.isDigit || c = '_'

/-- `\b` just before a position whose previous character is `p` (`none` at
the start of the string), when the character at the position is a word
character. -/
def boundaryOk : Option Char → Bool
  | none => true
  | some c => !isWordChar c

/-- The `<NUM>` placeholder. -/
def numPH : List Char := "<NUM>".data

/-- Scanner state for `re.sub(\b\d+\.?\d*\b, <NUM>, s)`.  Runs of digits are
buffered (reversed) until the character after the candidate decides, exactly
as the greedy match with its trailing `\b` and backtracking does. -/
inductive NumState
  | out (prev : Option Char)
  | inInt (ok : Bool) (acc : List Char)
  | afterDot (ds : List Char)
  | inFrac (ds ds2 : List Char)

/-- The number-substitution scanner.  `inInt ok acc`: reading `\d+`, `ok`
records the `\b` at its start; `afterDot ds`: read `ds ++ "."` with a valid
start; `inFrac ds ds2`: reading the fractional digits.  On the terminating
character the match (or the backtracked shorter match, or no match) is
emitted. -/
def subNumScan : NumState → List Char → List Char
  | .out _, [] => []
  | .out p, c :: rest =>
    if c.isDigit then subNumScan (.inInt (boundaryOk p) [c]) rest
    else c :: subNumScan (.out (some c)) rest
  | .inInt ok acc, [] => if ok then numPH else acc.reverse
  | .inInt ok acc, c :: rest =>
    if c.isDigit then subNumScan (.inInt ok (c :: acc)) rest
    else if c = '.' then
      if ok then subNumScan (.afterDot acc) rest
      else acc.reverse ++ '.' :: subNumScan (.out (some '.')) rest
    else if ok && !isWordChar c then
      numPH ++ c :: subNumScan (.out (some c)) rest
    else acc.reverse ++ c :: subNumScan (.out (some c)) rest
  | .afterDot _, [] => numPH ++ ['.']
  | .afterDot ds, c :: rest =>
    if c.isDigit then subNumScan (.inFrac ds [c]) rest
    else if isWordChar c then numPH ++ c :: subNumScan (.out (some c)) rest
    else numPH ++ '.' :: c :: subNumScan (.out (some c)) rest
  | .inFrac _ _, [] => numPH
  | .inFrac ds ds2, c :: rest =>
    if c.isDigit then subNumScan (.inFrac ds (c :: ds2)) rest
    else if !isWordChar c then numPH ++ c :: subNumScan (.out (some c)) rest
    else numPH ++ ds2.reverse ++ c :: subNumScan (.out (some c)) rest

/-- The number-substitution pass. -/
def sub_num (s : List Char) : List Char := subNumScan (.out none) s

/-- Python's `\s` (and `str.strip`'s whitespace) on ASCII. -/
def isPySpace (c : Char) : Bool :=
  c = ' ' || c = '\t' || c = '\n' || c = '\r' || c = '\x0b' || c = '\x0c'

/-- `re.sub(\s+, " ", s)`: collapse every whitespace run to one space. -/
def collapseWsAux : Bool → List Char → List Char
  | _, [] => []
  | inRun, c :: rest =>
    if isPySpace c then
      if inRun then collapseWsAux true rest
      else ' ' :: collapseWsAux true rest
    else c :: collapseWsAux false rest

/-- `str.strip()`. -/
def pyStrip (l : List Char) : List Char :=
  ((l.dropWhile isPySpace).reverse.dropWhile isPySpace).reverse

/-- `ToolificationEngine._extract_skeleton`. -/
def extract_skeleton (code : List Char) : List Char :=
  pyStrip (collapseWsAux false
    (sub_num (sub_quote '\'' "<STR>".data (sub_quote '"' "<STR>".data code))))

end ToolificationEngine

/-! ### Code fragments that differ only in literal contents

A fragment template interleaves shared code chunks with string-literal
contents and numeric literals; two fragments "differ only in the contents of
their literals" when they render the same template shape with possibly
different literal contents. -/

/-- One piece of a code-fragment template. -/
inductive FragItem
  | chunk (s : List Char)
  | dstr (c : List Char)
  | sstr (c : List Char)
  | num (v : List Char)

namespace FragItem

/-- The source text of one item. -/
def render : FragItem → List Char
  | chunk s => s
  | dstr c => '"' :: c ++ ['"']
  | sstr c => '\'' :: c ++ ['\'']
  | num v => v

/-- The item's text after the double-quote substitution pass. -/
def render1 : FragItem → List Char
  | dstr _ => "\"<STR>\"".data
  | i => i.render

/-- The item's text after both quote substitution passes. -/
def render2 : FragItem → List Char
  | dstr _ => "\"<STR>\"".data
  | sstr _ => "'<STR>'".data
  | i => i.render

/-- The item's text after the number substitution pass as well. -/
def render3 : FragItem → List Char
  | dstr _ => "\"<STR>\"".data
  | sstr _ => "'<STR>'".data
  | num _ => "<NUM>".data
  | chunk s => s

end FragItem

/-- The source text of a whole template. -/
def renderFrag (T : List FragItem) : List Char := (T.map FragItem.render).flatten

/-- Same template shape: identical shared chunks, literal items of the same
kind (with arbitrary contents) in the same places. -/
inductive SameShape : List FragItem → List FragItem → Prop
  | nil : SameShape [] []
  | chunk (s : List Char) {t₁ t₂ : List FragItem} :
      SameShape t₁ t₂ → SameShape (.chunk s :: t₁) (.chunk s :: t₂)
  | dstr (c₁ c₂ : List Char) {t₁ t₂ : List FragItem} :
      SameShape t₁ t₂ → SameShape (.dstr c₁ :: t₁) (.dstr c₂ :: t₂)
  | sstr (c₁ c₂ : List Char) {t₁ t₂ : List FragItem} :
      SameShape t₁ t₂ → SameShape (.sstr c₁ :: t₁) (.sstr c₂ :: t₂)
  | num (v₁ v₂ : List Char) {t₁ t₂ : List FragItem} :
      SameShape t₁ t₂ → SameShape (.num v₁ :: t₁) (.num v₂ :: t₂)

/-- Contains no quote character of either kind. -/
def quoteFree (s : List Char) : Bool := s.all (fun c => c ≠ '"' && c ≠ '\'')

/-- Contains no decimal digit. -/
def digitFree (s : List Char) : Bool := s.all (fun c => !c.isDigit)

/-- A plain decimal numeral: digits, optionally followed by `.` and more
digits. -/
def isDecimal (v : List Char) : Bool :=
  let ds := v.takeWhile Char.isDigit
  let rest := v.dropWhile Char.isDigit
  decide (ds ≠ []) &&
    (decide (rest = []) ||
      (decide (rest.take 1 = ['.']) && decide (rest.drop 1 ≠ []) &&
        (rest.drop 1).all Char.isDigit))

/-- The last character of `s`, or `p` when `s` is empty (the class of the
previously rendered character after emitting `s`). -/
def lastOr : List Char → Option Char → Option Char
  | [], p => p
  | c :: rest, _ => lastOr rest (some c)

/-- The character class immediately after a `num` item must end the regex
match: not a word character and not `.` (skipping empty chunks); a following
string literal starts with a quote and is always fine; a directly following
`num` is not. -/
def afterNumOk : List FragItem → Bool
  | [] => true
  | .chunk [] :: rest => afterNumOk rest
  | .chunk (c :: _) :: _ => !ToolificationEngine.isWordChar c && decide (c ≠ '.')
  | .dstr _ :: _ => true
  | .sstr _ :: _ => true
  | .num _ :: _ => false

/-- Well-formedness of a template, carrying the class of the previously
rendered character: chunks are quote- and digit-free, literal contents are
quote-free, numerals are plain decimals starting at a word boundary and
followed by a terminating character class.  After a numeral the previous
character is a digit; `'0'` represents that class. -/
def fragWf (prev : Option Char) : List FragItem → Bool
  | [] => true
  | .chunk s :: rest =>
    quoteFree s && digitFree s && fragWf (lastOr s prev) rest
  | .dstr c :: rest => quoteFree c && fragWf (some '"') rest
  | .sstr c :: rest => quoteFree c && fragWf (some '\'') rest
  | .num v :: rest =>
    isDecimal v && ToolificationEngine.boundaryOk prev && afterNumOk rest &&
      fragWf (some '0') rest

/-- The per-item content conditions of `fragWf` (independent of the
neighbour context). -/
def itemBasicOk : FragItem → Prop
  | .chunk s => quoteFree s = true ∧ digitFree s = true
  | .dstr c => quoteFree c = true
  | .sstr c => quoteFree c = true
  | .num v => isDecimal v = true

/-! ### Concrete scenario states used by the theorems below -/

/-- Template of `load("a.csv", 5)`: shared code with a string literal and a
numeric literal. -/
def skeletonDemoT1 : List FragItem :=
  [.chunk "load(".data, .dstr "a.csv".data, .chunk ", ".data,
   .num "5".data, .chunk ")".data]

/-- The same template with the other literal contents:
`load("b.csv", 123)`. -/
def skeletonDemoT2 : List FragItem :=
  [.chunk "load(".data, .dstr "b.csv".data, .chunk ", ".data,
   .num "123".data, .chunk ")".data]

/-- First registration for the rename scenario: shared tool `foo` by agent
`a1`. -/
def renameDemoA : ToolDefinition :=
  { id := "t1", name := "foo", description := "first", scope := .shared,
    created_by_agent_id := some "a1" }

/-- Second registration for the rename scenario: shared tool `bar` by agent
`a2`. -/
def renameDemoB : ToolDefinition :=
  { id := "t2", name := "bar", description := "second", scope := .shared,
    created_by_agent_id := some "a2" }

/-- Registry after registering `renameDemoA`. -/
def renameDemoState1 : RegState :=
  match ToolRegistry.register ToolRegistry.init renameDemoA with
  | .ok st => st
  | .error _ => ToolRegistry.init

/-- Registry after also registering `renameDemoB`. -/
def renameDemoState2 : RegState :=
  match ToolRegistry.register renameDemoState1 renameDemoB with
  | .ok st => st
  | .error _ => renameDemoState1

/-- Registry after `a2` renames its tool `t2` to the already-taken name
`foo`. -/
def renameDemoState3 : RegState :=
  match ToolRegistry.update renameDemoState2 "t2" { name := some "foo" } "a2" with
  | .ok (_, st) => st
  | .error _ => renameDemoState2

/-- Behaviour script for the mutual-delegation scenario: `A` delegates to
`B`, `B` delegates back to `A`. -/
def delegationDemoEnv : String → List AgentAction := fun a =>
  if a = "A" then [.delegate "B"]
  else if a = "B" then [.delegate "A"]
  else []

/-- Two live agents, no delegation in flight. -/
def delegationDemoInit : DelegationState :=
  { agents := ["A", "B"], chains := [], entries := [] }

/-- Behaviour script for the self-delegation scenario: `A` delegates to
itself. -/
def selfDemoEnv : String → List AgentAction := fun a =>
  if a = "A" then [.delegate "A"] else []

/-- One live agent, no delegation in flight. -/
def selfDemoInit : DelegationState :=
  { agents := ["A"], chains := [], entries := [] }

/-- A one-agent civilization (the primary agent at depth 0) with the default
config limits. -/
def createDemoCiv : Civilization :=
  { max_agents := 50, max_agent_depth := 10,
    agents := [("A", { id := "A", name := "Prime", role := "primary" })],
    state_agent_states := [("A", { id := "A", name := "Prime", role := "primary" })],
    alliances := [],
    registry := ToolRegistry.init }

/-- A civilization with two agents, one alliance and one custom shared tool,
used to witness the save/load round trip. -/
def persistDemoCiv : Civilization :=
  { max_agents := 50, max_agent_depth := 10,
    agents :=
      [("A", { id := "A", name := "Prime", role := "primary",
               knowledge := [("goal", "thrive")] }),
       ("B", { id := "B", name := "Helper", role := "helper", depth := 1,
               created_by := some "A" })],
    state_agent_states :=
      [("A", { id := "A", name := "Prime", role := "primary",
               knowledge := [("goal", "thrive")] }),
       ("B", { id := "B", name := "Helper", role := "helper", depth := 1,
               created_by := some "A" })],
    alliances :=
      [("al1", { id := "al1", name := "team", purpose := "collaborate",
                 agent_ids := ["A", "B"], created_by := "A" })],
    registry := renameDemoState1 }

/-! ## Lemmas about the dict model -/

theorem dictGet_set_self {β : Type} (d : List (String × β)) (k : String) (v : β) :
    dictGet (dictSet d k v) k = some v := by
  induction d with
  | nil => simp [dictGet, dictSet]
  | cons p rest ih =>
    by_cases h : p.1 = k
    · simp [dictGet, dictSet, h]
    · simp [dictGet, dictSet, h, ih]

theorem dictGet_set_ne {β : Type} (d : List (String × β)) (k k' : String) (v : β)
    (h : k ≠ k') : dictGet (dictSet d k v) k' = dictGet d k' := by
  induction d with
  | nil => simp [dictGet, dictSet, h]
  | cons p rest ih =>
    by_cases hp : p.1 = k
    · simp [dictGet, dictSet, hp, h]
    · simp [dictGet, dictSet, hp, ih]

theorem mem_dictSet {β : Type} {d : List (String × β)} {k : String} {v : β}
    {q : String × β} (h : q ∈ dictSet d k v) : q ∈ d ∨ q = (k, v) := by
  induction d with
  | nil =>
    simp only [dictSet, List.mem_singleton] at h
    exact Or.inr h
  | cons p rest ih =>
    obtain ⟨k', v'⟩ := p
    by_cases hp : k' = k
    · simp only [dictSet, if_pos hp, List.mem_cons] at h
      rcases h with h | h
      · exact Or.inr h
      · exact Or.inl (List.mem_cons_of_mem _ h)
    · simp only [dictSet, if_neg hp, List.mem_cons] at h
      rcases h with h | h
      · exact Or.inl (List.mem_cons.mpr (Or.inl h))
      · rcases ih h with h' | h'
        · exact Or.inl (List.mem_cons_of_mem _ h')
        · exact Or.inr h'

theorem dictHas_iff_mem_keys {β : Type} (d : List (String × β)) (k : String) :
    dictHas d k = true ↔ k ∈ d.map Prod.fst := by
  induction d with
  | nil => simp [dictHas, dictGet]
  | cons p rest ih =>
    by_cases hp : p.1 = k
    · simp [dictHas, dictGet, hp]
    · simp only [dictHas, dictGet, if_neg hp, List.map_cons, List.mem_cons]
      rw [← dictHas]
      rw [ih]
      constructor
      · exact fun h => Or.inr h
      · rintro (h | h)
        · exact absurd h.symm hp
        · exact h

theorem dictGet_eq_none_of_not_mem {β : Type} {d : List (String × β)} {k : String}
    (h : k ∉ d.map Prod.fst) : dictGet d k = none := by
  induction d with
  | nil => rfl
  | cons p rest ih =>
    obtain ⟨k', v'⟩ := p
    simp only [List.map_cons, List.mem_cons] at h
    push_neg at h
    simp only [dictGet, if_neg (Ne.symm h.1)]
    exact ih h.2

theorem dictSet_fresh {β : Type} {d : List (String × β)} {k : String} (v : β)
    (h : k ∉ d.map Prod.fst) : dictSet d k v = d ++ [(k, v)] := by
  induction d with
  | nil => rfl
  | cons p rest ih =>
    obtain ⟨k', v'⟩ := p
    simp only [List.map_cons, List.mem_cons] at h
    push_neg at h
    simp only [dictSet, if_neg (Ne.symm h.1), List.cons_append]
    rw [ih h.2]

theorem dictSet_mem_self {β : Type} {d : List (String × β)} {k : String} {v : β}
    (hmem : (k, v) ∈ d) (hnd : (d.map Prod.fst).Nodup) : dictSet d k v = d := by
  induction d with
  | nil => cases hmem
  | cons p rest ih =>
    simp only [List.map_cons, List.nodup_cons] at hnd
    rcases List.mem_cons.mp hmem with h | h
    · simp [dictSet, ← h]
    · have hp : p.1 ≠ k := by
        intro hk
        exact hnd.1 (hk ▸ (List.mem_map.mpr ⟨(k, v), h, rfl⟩))
      simp only [dictSet, if_neg hp]
      rw [ih h hnd.2]

/-! ## C1 — sandbox path confinement -/

/-- C1: the claim states that `read_file`/`write_file` raise a permission
error exactly when the path resolves outside `/workspace`, including `..`
traversal.  The code only checks `startswith("/workspace")` on the literal
text: `/workspace/../etc/passwd` (and the relative `../etc/passwd`, which is
rewritten to it) passes the check although it resolves to `/etc/passwd`,
outside the confined root — the one security boundary the spec requires
exactly.  Straight outside paths are rejected and plain relative paths
inside the root are accepted, so the check is only wrong on paths that dodge
the text test. -/
theorem c1_path_traversal_escapes_confinement :
    SandboxManager.pathAllowed "/workspace/../etc/passwd".data = true ∧
    SandboxManager.resolvesInsideWorkspace
      (SandboxManager.effectivePath "/workspace/../etc/passwd".data) = false ∧
    SandboxManager.pathAllowed "../etc/passwd".data = true ∧
    SandboxManager.effectivePath "../etc/passwd".data =
      "/workspace/../etc/passwd".data ∧
    SandboxManager.pathAllowed "/workspace2/secret".data = true ∧
    SandboxManager.resolvesInsideWorkspace
      (SandboxManager.effectivePath "/workspace2/secret".data) = false ∧
    SandboxManager.pathAllowed "/etc/passwd".data = false ∧
    SandboxManager.pathAllowed "notes.txt".data = true ∧
    SandboxManager.resolvesInsideWorkspace
      (SandboxManager.effectivePath "notes.txt".data) = true := by
  decide

/-! ## C6 — conversation memory compaction -/

theorem lastN_length {α : Type} {l : List α} {m : Nat} (h : m ≤ l.length) :
    (lastN m l).length = m := by
  simp [lastN]; omega

theorem lastN_append_snoc {α : Type} {l : List α} {m : Nat} (h : m ≤ l.length) (t : α) :
    lastN (m + 1) (l ++ [t]) = lastN m l ++ [t] := by
  have h1 : (l ++ [t]).length - (m + 1) = l.length - m := by
    simp only [List.length_append, List.length_cons, List.length_nil]
    omega
  rw [lastN, lastN, h1, List.drop_append_of_le_length (by omega)]

theorem lastN_lastN {α : Type} {l : List α} {n m : Nat} (hn : n ≤ m) (hm : m ≤ l.length) :
    lastN n (lastN m l) = lastN n l := by
  unfold lastN
  rw [List.length_drop, List.drop_drop]
  congr 1
  omega

theorem lastN_append_right {α : Type} {A B : List α} {n : Nat} (h : n ≤ B.length) :
    lastN n (A ++ B) = lastN n B := by
  unfold lastN
  rw [List.length_append,
    show A.length + B.length - n = A.length + (B.length - n) by omega,
    ← List.drop_drop, List.drop_left]

theorem add_turn_trigger {α : Type} {N : Nat} {s : List α} {t : α}
    (h : N * 2 < (s ++ [t]).length) :
    AgentMemory.add_conversation_turn N s t = AgentMemory.compact_history N (s ++ [t]) := by
  simp only [AgentMemory.add_conversation_turn, if_pos h]

theorem add_turn_no_trigger {α : Type} {N : Nat} {s : List α} {t : α}
    (h : ¬ N * 2 < (s ++ [t]).length) :
    AgentMemory.add_conversation_turn N s t = s ++ [t] := by
  simp only [AgentMemory.add_conversation_turn, if_neg h]

theorem compact_trim {α : Type} {N : Nat} {l : List α} (h : N + 2 < l.length) :
    AgentMemory.compact_history N l = l.take 2 ++ pyTailSlice N l := by
  simp only [AgentMemory.compact_history, if_pos h]

theorem compact_keep {α : Type} {N : Nat} {l : List α} (h : ¬ N + 2 < l.length) :
    AgentMemory.compact_history N l = l := by
  simp only [AgentMemory.compact_history, if_neg h]

theorem conversation_snoc {α : Type} (N : Nat) (ts : List α) (t : α) :
    AgentMemory.conversationAfter N (ts ++ [t]) =
      AgentMemory.add_conversation_turn N (AgentMemory.conversationAfter N ts) t := by
  unfold AgentMemory.conversationAfter
  rw [List.foldl_append]
  rfl

theorem add_turn_step {α : Type} {N : Nat} (hN : 1 ≤ N) (ts : List α) (t : α) (m : Nat)
    (hrep : AgentMemory.conversationAfter N ts = ts.take 2 ++ lastN m ts)
    (hlen : m + min ts.length 2 = (AgentMemory.conversationAfter N ts).length)
    (hle : m + min ts.length 2 ≤ ts.length) :
    (∃ m', AgentMemory.conversationAfter N (ts ++ [t]) =
        (ts ++ [t]).take 2 ++ lastN m' (ts ++ [t]) ∧
      m' + min (ts ++ [t]).length 2 =
        (AgentMemory.conversationAfter N (ts ++ [t])).length ∧
      m' + min (ts ++ [t]).length 2 ≤ (ts ++ [t]).length) ∧
    (N * 2 < (AgentMemory.conversationAfter N ts).length + 1 →
      AgentMemory.conversationAfter N (ts ++ [t]) =
        (ts ++ [t]).take 2 ++ lastN N (ts ++ [t])) := by
  have hstep := conversation_snoc N ts t
  set k := ts.length with hk
  set s := AgentMemory.conversationAfter N ts with hs
  have hlen' : (s ++ [t]).length = m + min k 2 + 1 := by
    simp only [List.length_append, List.length_cons, List.length_nil]
    omega
  have hlen'' : (ts ++ [t]).length = k + 1 := by
    simp
  by_cases htrig : N * 2 < (s ++ [t]).length
  case pos =>
    -- compaction triggered
    have hk2 : 2 ≤ k := by
      rcases Nat.lt_or_ge k 2 with hlt | hge
      · omega
      · exact hge
    have hm2 : m + 2 ≤ k := by omega
    have hh' : s ++ [t] = (ts ++ [t]).take 2 ++ lastN (m + 1) (ts ++ [t]) := by
      rw [hrep, List.append_assoc, List.take_append_of_le_length (by omega),
        lastN_append_snoc (by omega)]
    have hlast1 : (lastN (m + 1) (ts ++ [t])).length = m + 1 :=
      lastN_length (by omega)
    have htk : ((ts ++ [t]).take 2).length = 2 := by
      rw [List.length_take]
      omega
    rw [hstep, add_turn_trigger htrig]
    by_cases hcomp : N + 2 < (s ++ [t]).length
    case pos =>
      -- actual trim down to take 2 ++ lastN N
      have hNm : N ≤ m := by omega
      have htake : (s ++ [t]).take 2 = (ts ++ [t]).take 2 := by
        rw [hh', List.take_append_of_le_length (by omega), List.take_take]
        norm_num
      have htail : pyTailSlice N (s ++ [t]) = lastN N (ts ++ [t]) := by
        rw [pyTailSlice, if_neg (by omega : ¬ N = 0)]
        show lastN N (s ++ [t]) = _
        rw [hh', lastN_append_right (by omega), lastN_lastN (by omega) (by omega)]
      rw [compact_trim hcomp, htake, htail]
      have hres : ((ts ++ [t]).take 2 ++ lastN N (ts ++ [t])).length = 2 + N := by
        rw [List.length_append, htk, lastN_length (by omega)]
      exact ⟨⟨N, rfl, by omega, by omega⟩, fun _ => rfl⟩
    case neg =>
      -- triggered but below the trim threshold: only possible for N = 1, m = 0
      have hN1 : N = 1 := by omega
      have hm0 : m = 0 := by omega
      rw [compact_keep hcomp, hh']
      have hres : ((ts ++ [t]).take 2 ++ lastN (m + 1) (ts ++ [t])).length = 2 + (m + 1) := by
        rw [List.length_append, htk, hlast1]
      refine ⟨⟨m + 1, rfl, by omega, by omega⟩, fun _ => ?_⟩
      rw [hN1, hm0]
  case neg =>
    -- no compaction
    rw [hstep, add_turn_no_trigger htrig]
    refine ⟨?_, fun hcon => absurd (by omega : N * 2 < (s ++ [t]).length) htrig⟩
    by_cases hk2 : 2 ≤ k
    case pos =>
      have hm2 : m + 2 ≤ k := by omega
      have hh' : s ++ [t] = (ts ++ [t]).take 2 ++ lastN (m + 1) (ts ++ [t]) := by
        rw [hrep, List.append_assoc, List.take_append_of_le_length (by omega),
          lastN_append_snoc (by omega)]
      have htk : ((ts ++ [t]).take 2).length = 2 := by
        rw [List.length_take]
        omega
      have hlast1 : (lastN (m + 1) (ts ++ [t])).length = m + 1 :=
        lastN_length (by omega)
      rw [hh']
      have hres : ((ts ++ [t]).take 2 ++ lastN (m + 1) (ts ++ [t])).length = 2 + (m + 1) := by
        rw [List.length_append, htk, hlast1]
      exact ⟨m + 1, rfl, by omega, by omega⟩
    case neg =>
      -- k ≤ 1: the stored history is still the whole list
      have hm0 : m = 0 := by omega
      have hsts : s = ts := by
        rw [hrep, hm0]
        match ts, (by omega : ts.length ≤ 1) with
        | [], _ => rfl
        | [a], _ => rfl
      have h1 : (ts ++ [t]).take 2 = ts ++ [t] :=
        List.take_of_length_le (by omega)
      have h2 : lastN 0 (ts ++ [t]) = [] := by
        rw [lastN, Nat.sub_zero, List.drop_length]
      refine ⟨0, ?_, ?_, by omega⟩
      · rw [hsts, h1, h2, List.append_nil]
      · rw [hsts]
        simp only [List.length_append, List.length_cons, List.length_nil]
        omega


/-- Invariant of the stored conversation history (window `N ≥ 1`): it is
always the first two turns ever added followed by some suffix of the turns
added so far, with the two parts disjoint. -/
theorem conversation_inv {α : Type} (N : Nat) (hN : 1 ≤ N) (ts : List α) :
    ∃ m, AgentMemory.conversationAfter N ts = ts.take 2 ++ lastN m ts ∧
      m + min ts.length 2 = (AgentMemory.conversationAfter N ts).length ∧
      m + min ts.length 2 ≤ ts.length := by
  induction ts using List.reverseRecOn with
  | nil => exact ⟨0, rfl, rfl, Nat.le_refl 0⟩
  | append_singleton ts t ih =>
    obtain ⟨m, h1, h2, h3⟩ := ih
    exact (add_turn_step hN ts t m h1 h2 h3).1

/-- C6 (amended to window sizes `N ≥ 1`): whenever an
`add_conversation_turn` call makes the stored turn count exceed `2 × N`, the
stored history after the call is exactly the earliest 2 turns followed by
the most recent `N` turns, in order. -/
theorem c6_compaction_keeps_first_two_and_window {α : Type} (N : Nat)
    (hN : 1 ≤ N) (ts : List α) (t : α)
    (htrig : 2 * N < (AgentMemory.conversationAfter N ts).length + 1) :
    AgentMemory.conversationAfter N (ts ++ [t]) =
      (ts ++ [t]).take 2 ++ lastN N (ts ++ [t]) := by
  obtain ⟨m, h1, h2, h3⟩ := conversation_inv N hN ts
  exact (add_turn_step hN ts t m h1 h2 h3).2 (by omega)

/-- Witness for C6: window 2, five turns — the stored history is
`[t0, t1, t3, t4]`. -/
theorem c6_compaction_witness :
    (1 ≤ 2 ∧ 2 * 2 < (AgentMemory.conversationAfter 2 [0, 1, 2, 3]).length + 1) ∧
    AgentMemory.conversationAfter 2 ([0, 1, 2, 3] ++ [4]) =
      ([0, 1, 2, 3] ++ [4]).take 2 ++ lastN 2 ([0, 1, 2, 3] ++ [4]) :=
  ⟨⟨by decide, by decide⟩,
    c6_compaction_keeps_first_two_and_window 2 (by decide) [0, 1, 2, 3] 4 (by decide)⟩

/-- Counterexample to C6 as stated, at window size `N = 0`: the third add
makes the count exceed `2 × 0`, but Python's `history[-0:]` is the whole
list, so the stored history becomes `[0, 1, 0, 1, 2]` — not the earliest 2
turns followed by the most recent 0 turns. -/
theorem c6_window_zero_counterexample :
    2 * 0 < (AgentMemory.conversationAfter 0 [(0 : Nat), 1]).length + 1 ∧
    AgentMemory.conversationAfter 0 ([(0 : Nat), 1] ++ [2]) = [0, 1, 0, 1, 2] ∧
    AgentMemory.conversationAfter 0 ([(0 : Nat), 1] ++ [2]) ≠
      ([(0 : Nat), 1] ++ [2]).take 2 ++ lastN 0 ([(0 : Nat), 1] ++ [2]) := by
  decide

/-! ## C2 — global uniqueness of tool names -/

/-- C2: the claim asserts tool names stay globally unique under every
sequence of register/update/delete, update included when it renames.
`register` does enforce the conflict check, but `update` re-indexes a rename
without one: after registering shared tools `foo` (id `t1`) and `bar`
(id `t2`), the update renaming `t2` to `foo` succeeds, leaving two stored
definitions named `foo` (ids `t1` and `t2`) and `t1` shadowed out of the
name index — the uniqueness invariant the spec states is violated by the
code. -/
theorem c2_update_rename_creates_duplicate_name :
    ToolRegistry.register ToolRegistry.init renameDemoA = .ok renameDemoState1 ∧
    ToolRegistry.register renameDemoState1 renameDemoB = .ok renameDemoState2 ∧
    ToolRegistry.update renameDemoState2 "t2" { name := some "foo" } "a2" =
      .ok ({ renameDemoB with name := "foo", version := 2 }, renameDemoState3) ∧
    ((dictValues renameDemoState3.tools).filter
      (fun d => d.name = "foo")).map (fun d => d.id) = ["t1", "t2"] ∧
    (dictGet renameDemoState3.tools "t1").isSome = true ∧
    (dictGet renameDemoState3.tools_by_name "foo").map (fun d => d.id) = some "t2" ∧
    dictGet renameDemoState3.tools_by_name "bar" = none := by
  decide

/-! ## C3 — execution logging and failure recovery -/

theorem dictGet_mutate (d : List (String × ToolDefinition)) (tid : String)
    (t' : ToolDefinition) (k : String) :
    dictGet (dictMutate d tid t') k =
      (dictGet d k).map (fun v => if v.id = tid then t' else v) := by
  induction d with
  | nil => rfl
  | cons p rest ih =>
    obtain ⟨k', v'⟩ := p
    by_cases hk : k' = k
    · simp [dictMutate, dictGet, hk]
    · simp [dictMutate, dictGet, hk, ih]

/-- C3: with a bound handler, `ToolRegistry.execute` appends exactly one
execution record and bumps the named tool's usage counter by one whether the
handler succeeds or fails, and `Agent._execute_tool` converts a handler
failure into a `tool_result` block marked `is_error` instead of letting the
exception escape the decision loop. -/
theorem c3_execute_logs_all_and_converts_failures
    (st : RegState) (tool_name agent_id tool_input tool_use_id : String)
    (t : ToolDefinition)
    (hh : dictHas st.handlers tool_name = true)
    (ht : dictGet st.tools_by_name tool_name = some t)
    (outcome : Except String String) :
    ((Agent.execute_tool st tool_name agent_id tool_input tool_use_id
        outcome).2.execution_log =
      st.execution_log ++
        [{ tool_name := tool_name, agent_id := agent_id,
           input_params := tool_input,
           output := String.mk
             ((match outcome with | .ok s => s | .error e => e).data.take 1000),
           success := match outcome with | .ok _ => true | .error _ => false }]) ∧
    (dictGet (Agent.execute_tool st tool_name agent_id tool_input tool_use_id
        outcome).2.tools_by_name tool_name =
      some { t with usage_count := t.usage_count + 1 }) ∧
    (∀ e, outcome = .error e →
      (Agent.execute_tool st tool_name agent_id tool_input tool_use_id
        outcome).1 =
        { tool_use_id := tool_use_id,
          content := "Error executing tool '" ++ tool_name ++ "': " ++ e,
          is_error := true }) ∧
    (∀ s, outcome = .ok s →
      (Agent.execute_tool st tool_name agent_id tool_input tool_use_id
        outcome).1 =
        { tool_use_id := tool_use_id, content := s, is_error := false }) := by
  cases outcome with
  | ok s =>
    refine ⟨?_, ?_, ?_, ?_⟩
    · simp [Agent.execute_tool, ToolRegistry.execute, hh, ht]
    · simp [Agent.execute_tool, ToolRegistry.execute, hh, ht, dictGet_mutate]
    · intro e he; cases he
    · intro s' hs
      cases hs
      simp [Agent.execute_tool, ToolRegistry.execute, hh, ht]
  | error e =>
    refine ⟨?_, ?_, ?_, ?_⟩
    · simp [Agent.execute_tool, ToolRegistry.execute, hh, ht]
    · simp [Agent.execute_tool, ToolRegistry.execute, hh, ht, dictGet_mutate]
    · intro e' he
      cases he
      simp [Agent.execute_tool, ToolRegistry.execute, hh, ht]
    · intro s hs; cases hs

theorem c3_witness :
    dictHas ToolRegistry.init.handlers "sandbox" = true ∧
    (∃ t, dictGet ToolRegistry.init.tools_by_name "sandbox" = some t ∧
      (Agent.execute_tool ToolRegistry.init "sandbox" "a1" "{}" "call1"
          (.error "boom")).2.execution_log.length =
        ToolRegistry.init.execution_log.length + 1 ∧
      (Agent.execute_tool ToolRegistry.init "sandbox" "a1" "{}" "call1"
          (.error "boom")).1.is_error = true) := by
  refine ⟨by decide, ⟨_, rfl, ?_, ?_⟩⟩
  · have h := c3_execute_logs_all_and_converts_failures ToolRegistry.init
      "sandbox" "a1" "{}" "call1" _ (by decide) rfl (.error "boom")
    rw [h.1]
    simp
  · have h := c3_execute_logs_all_and_converts_failures ToolRegistry.init
      "sandbox" "a1" "{}" "call1" _ (by decide) rfl (.error "boom")
    rw [h.2.2.1 "boom" rfl]

/-! ## C5 — update/delete permission rules -/

/-- C5: permission rules of `ToolRegistry.update` and `ToolRegistry.delete`.
A Builtin tool is never updatable or deletable, for any requester (the
`PermissionError` is raised before any mutation, so the caller's registry is
untouched); a Private tool is updatable/deletable exactly when the requester
is its creating agent; a Shared tool is updatable/deletable by any
requester. -/
theorem c5_update_delete_permission_rules
    (st : RegState) (tool_id requester : String) (t : ToolDefinition)
    (ht : dictGet st.tools tool_id = some t) (u : ToolUpdates) :
    (t.scope = .builtin →
      ToolRegistry.update st tool_id u requester =
        .error "Cannot edit built-in tools." ∧
      ToolRegistry.delete st tool_id requester =
        .error "Cannot delete built-in tools.") ∧
    (t.scope = .priv → t.created_by_agent_id ≠ some requester →
      ToolRegistry.update st tool_id u requester =
        .error "Cannot edit another agent's private tool." ∧
      ToolRegistry.delete st tool_id requester =
        .error "Cannot delete another agent's private tool.") ∧
    (t.scope = .priv → t.created_by_agent_id = some requester →
      (ToolRegistry.update st tool_id u requester).isOk = true ∧
      ToolRegistry.delete st tool_id requester =
        .ok (t.name, { st with
          tools := dictDel st.tools tool_id,
          tools_by_name := dictDel st.tools_by_name t.name,
          handlers := if dictHas st.handlers t.name then
                        dictDel st.handlers t.name
                      else st.handlers })) ∧
    (t.scope = .shared →
      (ToolRegistry.update st tool_id u requester).isOk = true ∧
      ToolRegistry.delete st tool_id requester =
        .ok (t.name, { st with
          tools := dictDel st.tools tool_id,
          tools_by_name := dictDel st.tools_by_name t.name,
          handlers := if dictHas st.handlers t.name then
                        dictDel st.handlers t.name
                      else st.handlers })) := by
  refine ⟨?_, ?_, ?_, ?_⟩
  · intro hb
    constructor
    · simp [ToolRegistry.update, ht, hb]
    · simp [ToolRegistry.delete, ht, hb]
  · intro hp hown
    have hb : t.scope ≠ .builtin := by rw [hp]; intro h; cases h
    constructor
    · simp [ToolRegistry.update, ht, hb, hp, hown]
    · simp [ToolRegistry.delete, ht, hb, hp, hown]
  · intro hp hown
    have hb : ¬ t.scope = .builtin := by rw [hp]; intro h; cases h
    have hno : ¬ (t.scope = .priv ∧ t.created_by_agent_id ≠ some requester) := by
      rintro ⟨-, hne⟩
      exact hne hown
    constructor
    · simp only [ToolRegistry.update, ht]
      rw [if_neg hb, if_neg hno]
      rfl
    · simp only [ToolRegistry.delete, ht]
      rw [if_neg hb, if_neg hno]
  · intro hsh
    have hb : ¬ t.scope = .builtin := by rw [hsh]; intro h; cases h
    have hno : ¬ (t.scope = .priv ∧ t.created_by_agent_id ≠ some requester) := by
      rintro ⟨h, -⟩
      rw [hsh] at h
      cases h
    constructor
    · simp only [ToolRegistry.update, ht]
      rw [if_neg hb, if_neg hno]
      rfl
    · simp only [ToolRegistry.delete, ht]
      rw [if_neg hb, if_neg hno]

theorem c5_witness :
    (ToolRegistry.update ToolRegistry.init "create_agent"
        { description := some "x" } "a1" =
      .error "Cannot edit built-in tools." ∧
     ToolRegistry.delete ToolRegistry.init "create_agent" "a1" =
      .error "Cannot delete built-in tools.") ∧
    (ToolRegistry.update renameDemoState1 "t1"
        { description := some "y" } "a2").isOk = true ∧
    (ToolRegistry.delete renameDemoState1 "t1" "a1").isOk = true := by
  constructor
  · exact (c5_update_delete_permission_rules ToolRegistry.init "create_agent" "a1"
      { id := "create_agent", name := "create_agent",
        description := "create_agent", scope := .builtin }
      (by decide) { description := some "x" }).1 rfl
  constructor
  · exact ((c5_update_delete_permission_rules renameDemoState1 "t1" "a2"
      renameDemoA (by decide) { description := some "y" }).2.2.2 rfl).1
  · rw [((c5_update_delete_permission_rules renameDemoState1 "t1" "a1"
      renameDemoA (by decide) {}).2.2.2 rfl).2]
    rfl

/-! ## C4 and C10 — delegation cycle detection -/

theorem chainOf_setChain (st : DelegationState) (a : String) (c : List String) :
    (st.setChain a c).chainOf a = c := by
  simp [DelegationState.chainOf, DelegationState.setChain, dictGet_set_self]

/-- C4 (counterexample to the chain naming): in the scenario where `A`
delegates to `B` and `B` delegates back to `A`, the chain checked by `B`'s
delegate call is `["A"]` — the delegating agent `B` itself is not on it —
so the cycle error names the chain `A -> A`, not `A -> B -> A` as the claim
states. -/
theorem c4_cycle_error_names_wrong_chain :
    (process_message delegationDemoEnv 5 "A" delegationDemoInit).1 =
      .ok ("Response from 'B':\n" ++ cycleErrorMsg ["A"] "A") ∧
    cycleErrorMsg ["A"] "A" =
      "Error: delegation cycle detected. Chain: A -> A" ∧
    cycleErrorMsg ["A"] "A" ≠
      "Error: delegation cycle detected. Chain: A -> B -> A" := by
  decide

/-- C4 (amended): when `A` delegates to `B` and `B` delegates back to `A`,
the second delegation fails with a cycle error naming the chain `A -> A`
(the in-flight chain plus the target; the delegating agent's own id is
appended only at dispatch) and `A`'s decision loop is not entered a second
time; and for every dispatched delegation, the chain propagated to the
target is cleared after the target's call regardless of outcome (success or
exception). -/
theorem c4_cycle_detected_and_chain_cleared :
    ((process_message delegationDemoEnv 5 "A" delegationDemoInit).1 =
      .ok ("Response from 'B':\n" ++
        "Error: delegation cycle detected. Chain: A -> A")) ∧
    ((process_message delegationDemoEnv 5 "A" delegationDemoInit).2.entriesOf
      "A" = 1) ∧
    (∀ (env : String → List AgentAction) (fuel : Nat) (caller target : String)
        (st : DelegationState),
      target ∈ st.agents → target ∉ st.chainOf caller →
      ((execute_delegate_task env fuel caller target st).2).chainOf target
        = []) := by
  refine ⟨by decide, by decide, ?_⟩
  intro env fuel caller target st hA hC
  unfold execute_delegate_task delegate_core
  rw [if_neg (not_not_intro hA), if_neg hC]
  dsimp only
  rcases hres : process_message env fuel target
      (st.setChain target (st.chainOf caller ++ [caller])) with ⟨r, st2⟩
  cases r with
  | ok s => exact chainOf_setChain st2 target []
  | error e => exact chainOf_setChain st2 target []

/-- Witness for C4's universally quantified cleanup conjunct: after `A`'s
dispatched delegation to `B`, `B`'s delegation chain is empty again. -/
theorem c4_witness :
    ("B" ∈ delegationDemoInit.agents ∧
      "B" ∉ delegationDemoInit.chainOf "A") ∧
    ((execute_delegate_task delegationDemoEnv 5 "A" "B"
        delegationDemoInit).2).chainOf "B" = [] :=
  ⟨⟨by decide, by decide⟩,
    c4_cycle_detected_and_chain_cleared.2.2 delegationDemoEnv 5 "A" "B"
      delegationDemoInit (by decide) (by decide)⟩

/-- C10: an agent's *first* self-delegation is not rejected: with an empty
delegation chain, `delegate_task` from `A` to `A` itself proceeds into `A`'s
decision loop (the response wrapper is produced and the loop is entered
once), and only the nested second self-delegation inside that loop fails
with the cycle error, which surfaces inside the successful response; the
propagated chain is cleared afterwards. -/
theorem c10_first_self_delegation_proceeds :
    (execute_delegate_task selfDemoEnv 5 "A" "A" selfDemoInit).1 =
      .ok ("Response from 'A':
" ++
        "Error: delegation cycle detected. Chain: A -> A") ∧
    (execute_delegate_task selfDemoEnv 5 "A" "A" selfDemoInit).2.entriesOf
      "A" = 1 ∧
    (execute_delegate_task selfDemoEnv 5 "A" "A" selfDemoInit).2.chainOf
      "A" = [] := by
  decide

/-! ## C7 — agent creation depth -/

/-- Along any chain of `create_agent` tool calls the configured depth limit
is unchanged, and the depth bound on all agents is preserved. -/
theorem reachable_depth_aux {init civ : Civilization}
    (h : ReachableByCreate init civ) :
    civ.max_agent_depth = init.max_agent_depth ∧
    ((∀ p ∈ init.agents, p.2.depth ≤ init.max_agent_depth) →
      ∀ p ∈ civ.agents, p.2.depth ≤ init.max_agent_depth) := by
  induction h with
  | refl => exact ⟨rfl, fun h => h⟩
  | step c creatorId creator id name role hreach hcreator ih =>
    constructor
    · unfold execute_create_agent
      by_cases h1 : c.max_agents ≤ c.agents.length
      · rw [if_pos h1]
        exact ih.1
      · rw [if_neg h1]
        by_cases h2 : c.max_agent_depth ≤ creator.depth
        · rw [if_pos h2]
          exact ih.1
        · rw [if_neg h2]
          simpa [Civilization.create_agent] using ih.1
    · intro hinit p hp
      unfold execute_create_agent at hp
      by_cases h1 : c.max_agents ≤ c.agents.length
      · rw [if_pos h1] at hp
        exact ih.2 hinit p hp
      · rw [if_neg h1] at hp
        by_cases h2 : c.max_agent_depth ≤ creator.depth
        · rw [if_pos h2] at hp
          exact ih.2 hinit p hp
        · rw [if_neg h2] at hp
          simp [Civilization.create_agent] at hp
          rcases mem_dictSet hp with hmem | heq
          · exact ih.2 hinit p hmem
          · rw [heq]
            have hmax := ih.1
            simp
            omega

/-- C7: every agent created through the `create_agent` tool has depth equal
to its creator's depth plus one; an attempt by a creator whose depth has
reached the configured maximum fails without creating anything (the
civilization is returned unchanged); consequently, in every civilization
reachable by `create_agent` calls from a state whose agents all respect the
limit, every agent satisfies `depth ≤ max_agent_depth`. -/
theorem c7_creation_depth_bounded :
    (∀ (civ : Civilization) (creator : AgentState) (id name role : String)
        (a : AgentState) (civ' : Civilization),
      execute_create_agent civ creator id name role = (some a, civ') →
      a.depth = creator.depth + 1 ∧ a.created_by = some creator.id) ∧
    (∀ (civ : Civilization) (creator : AgentState) (id name role : String),
      civ.max_agent_depth ≤ creator.depth →
      execute_create_agent civ creator id name role = (none, civ)) ∧
    (∀ (init civ : Civilization), ReachableByCreate init civ →
      (∀ p ∈ init.agents, p.2.depth ≤ init.max_agent_depth) →
      ∀ p ∈ civ.agents, p.2.depth ≤ civ.max_agent_depth) := by
  refine ⟨?_, ?_, ?_⟩
  · intro civ creator id name role a civ' h
    unfold execute_create_agent at h
    by_cases h1 : civ.max_agents ≤ civ.agents.length
    · rw [if_pos h1] at h
      simp at h
    · rw [if_neg h1] at h
      by_cases h2 : civ.max_agent_depth ≤ creator.depth
      · rw [if_pos h2] at h
        simp at h
      · rw [if_neg h2] at h
        simp [Civilization.create_agent] at h
        obtain ⟨ha, -⟩ := h
        rw [← ha]
        exact ⟨rfl, rfl⟩
  · intro civ creator id name role h2
    unfold execute_create_agent
    by_cases h1 : civ.max_agents ≤ civ.agents.length
    · rw [if_pos h1]
    · rw [if_neg h1, if_pos h2]
  · intro init civ hreach hinit p hp
    obtain ⟨hmax, hdep⟩ := reachable_depth_aux hreach
    rw [hmax]
    exact hdep hinit p hp

/-- Witness for C7: in the demo civilization (depth limit 10), a creator
already at depth 10 cannot create, and the civilization is unchanged. -/
theorem c7_witness :
    createDemoCiv.max_agent_depth ≤ 10 ∧
    execute_create_agent createDemoCiv
      { id := "D", name := "Deep", role := "r", depth := 10 } "E" "Kid" "r" =
      (none, createDemoCiv) :=
  ⟨by decide, c7_creation_depth_bounded.2.1 createDemoCiv
    { id := "D", name := "Deep", role := "r", depth := 10 } "E" "Kid" "r"
    (by decide)⟩

/-! ## C9 — save/load round trip -/

theorem foldl_upsert_self {β : Type} (l : List (String × β))
    (hnd : (l.map Prod.fst).Nodup) :
    ∀ l' : List (String × β), (∀ p ∈ l', p ∈ l) →
      l'.foldl (fun m p => dictSet m p.1 p.2) l = l := by
  intro l' h
  induction l' with
  | nil => rfl
  | cons q rest ih =>
    simp only [List.foldl_cons]
    rw [dictSet_mem_self (h q (List.mem_cons_self q rest)) hnd]
    exact ih (fun p hp => h p (List.mem_cons_of_mem _ hp))

theorem foldl_dictSet_rebuild {β : Type} (l : List (String × β)) :
    ∀ acc, (l.map Prod.fst).Nodup →
      (∀ k ∈ l.map Prod.fst, k ∉ acc.map Prod.fst) →
      l.foldl (fun m p => dictSet m p.1 p.2) acc = acc ++ l := by
  induction l with
  | nil => intro acc _ _; simp
  | cons q rest ih =>
    intro acc hnd hdisj
    simp only [List.map_cons, List.nodup_cons] at hnd
    simp only [List.foldl_cons]
    rw [dictSet_fresh q.2 (hdisj q.1 (by simp))]
    rw [ih (acc ++ [(q.1, q.2)]) hnd.2 ?_]
    · simp
    · intro k hk
      simp only [List.map_append, List.mem_append]
      rintro (hacc | hq)
      · exact hdisj k (by simp [hk]) hacc
      · simp at hq
        rw [hq] at hk
        exact hnd.1 hk

theorem foldl_dictSet_byId (al : List (String × Alliance)) :
    ∀ acc, (∀ p ∈ al, p.2.id = p.1) →
      (dictValues al).foldl (fun m a => dictSet m a.id a) acc =
        al.foldl (fun m p => dictSet m p.1 p.2) acc := by
  induction al with
  | nil => intro acc _; rfl
  | cons q rest ih =>
    intro acc hid
    simp only [dictValues, List.map_cons, List.foldl_cons]
    rw [hid q (List.mem_cons_self q rest)]
    exact ih _ (fun p hp => hid p (List.mem_cons_of_mem _ hp))

theorem register_ok {r : RegState} {d : ToolDefinition}
    (h : d.name ∉ r.tools_by_name.map Prod.fst) :
    ToolRegistry.register r d = .ok
      { r with tools := dictSet r.tools d.id d,
               tools_by_name := dictSet r.tools_by_name d.name d,
               handlers := if truthyStr d.source_code then
                             dictSet r.handlers d.name d.id
                           else r.handlers } := by
  have hhas : dictHas r.tools_by_name d.name = false := by
    rw [← Bool.not_eq_true]
    intro hc
    exact h ((dictHas_iff_mem_keys _ _).mp hc)
  simp [ToolRegistry.register, hhas]

theorem register_fold (ds : List ToolDefinition) :
    ∀ r : RegState,
      (∀ d ∈ ds, d.name ∉ r.tools_by_name.map Prod.fst) →
      (∀ d ∈ ds, d.id ∉ r.tools.map Prod.fst) →
      (ds.map (fun d => d.name)).Nodup →
      (ds.map (fun d => d.id)).Nodup →
      (ds.foldl (fun r d => match ToolRegistry.register r d with
        | .ok r' => r'
        | .error _ => r) r).tools = r.tools ++ ds.map (fun d => (d.id, d)) := by
  induction ds with
  | nil => intro r _ _ _ _; simp
  | cons d rest ih =>
    intro r hfresh hidf hnd hnid
    simp only [List.map_cons, List.nodup_cons] at hnd hnid
    simp only [List.foldl_cons]
    rw [register_ok (hfresh d (List.mem_cons_self d rest))]
    have hrest := ih
      { r with tools := dictSet r.tools d.id d,
               tools_by_name := dictSet r.tools_by_name d.name d,
               handlers := if truthyStr d.source_code then
                             dictSet r.handlers d.name d.id
                           else r.handlers }
      ?_ ?_ hnd.2 hnid.2
    · rw [hrest]
      rw [dictSet_fresh d (hidf d (List.mem_cons_self d rest))]
      simp
    · intro d' hd'
      rw [dictSet_fresh d (hfresh d (List.mem_cons_self d rest))]
      simp only [List.map_append, List.mem_append]
      rintro (hin | hq)
      · exact hfresh d' (List.mem_cons_of_mem _ hd') hin
      · simp at hq
        exact hnd.1 (hq ▸ List.mem_map.mpr ⟨d', hd', rfl⟩)
    · intro d' hd'
      rw [dictSet_fresh d (hidf d (List.mem_cons_self d rest))]
      simp only [List.map_append, List.mem_append]
      rintro (hin | hq)
      · exact hidf d' (List.mem_cons_of_mem _ hd') hin
      · simp at hq
        exact hnid.1 (hq ▸ List.mem_map.mpr ⟨d', hd', rfl⟩)

/-- `nonBuiltinTools` depends only on the `tools` dict. -/
theorem nonBuiltinTools_tools (r : RegState) :
    nonBuiltinTools r =
      (r.tools.map (fun p => p.2)).filter (fun t => t.scope ≠ ToolScope.builtin) :=
  rfl

/-- C9: save followed by load yields a civilization with the same agents
dict (hence the same agent count and each agent's name, role and knowledge
entries), the same alliances dict (hence the same alliance count and
memberships), and the same non-builtin tool definitions.  The hypotheses are
the registry/orchestrator invariants of the data model: the serialized state
mirrors the live agents, ids/names are unique, alliance dict keys are the
alliance ids, and custom tool names/ids do not collide with the builtin
ones. -/
theorem c9_save_load_round_trip (civ : Civilization)
    (h1 : civ.state_agent_states = civ.agents)
    (h2 : (civ.agents.map Prod.fst).Nodup)
    (h3 : ∀ p ∈ civ.alliances, p.2.id = p.1)
    (h4 : (civ.alliances.map Prod.fst).Nodup)
    (h5 : ((nonBuiltinTools civ.registry).map (fun t => t.name)).Nodup)
    (h6 : ∀ t ∈ nonBuiltinTools civ.registry,
      t.name ∉ ToolRegistry.builtinNames)
    (h7 : ((nonBuiltinTools civ.registry).map (fun t => t.id)).Nodup)
    (h8 : ∀ t ∈ nonBuiltinTools civ.registry,
      t.id ∉ ToolRegistry.builtinNames) :
    (Civilization.load civ.max_agents civ.max_agent_depth civ.save).agents =
      civ.agents ∧
    (Civilization.load civ.max_agents civ.max_agent_depth
      civ.save).alliances = civ.alliances ∧
    nonBuiltinTools (Civilization.load civ.max_agents civ.max_agent_depth
      civ.save).registry = nonBuiltinTools civ.registry := by
  have hsaved_ag : (civ.save).agent_states = civ.agents := by
    show civ.agents.foldl (fun m p => dictSet m p.1 p.2)
      civ.state_agent_states = civ.agents
    rw [h1]
    exact foldl_upsert_self civ.agents h2 civ.agents (fun p hp => hp)
  refine ⟨?_, ?_, ?_⟩
  · show (civ.save).agent_states.foldl (fun m p => dictSet m p.1 p.2) [] =
      civ.agents
    rw [hsaved_ag]
    simpa using foldl_dictSet_rebuild civ.agents [] h2 (by simp)
  · show (dictValues civ.alliances).foldl (fun m a => dictSet m a.id a) [] =
      civ.alliances
    rw [foldl_dictSet_byId civ.alliances [] h3]
    simpa using foldl_dictSet_rebuild civ.alliances [] h4 (by simp)
  · have hinit_names : ToolRegistry.init.tools_by_name.map Prod.fst =
        ToolRegistry.builtinNames := by decide
    have hinit_ids : ToolRegistry.init.tools.map Prod.fst =
        ToolRegistry.builtinNames := by decide
    have htools := register_fold (nonBuiltinTools civ.registry)
      ToolRegistry.init
      (fun d hd => by rw [hinit_names]; exact h6 d hd)
      (fun d hd => by rw [hinit_ids]; exact h8 d hd)
      h5 h7
    have hload : (Civilization.load civ.max_agents civ.max_agent_depth
        civ.save).registry.tools =
        ToolRegistry.init.tools ++
          (nonBuiltinTools civ.registry).map (fun d => (d.id, d)) := htools
    rw [nonBuiltinTools_tools, hload, List.map_append, List.filter_append]
    have h0 : ((ToolRegistry.init.tools.map (fun p => p.2)).filter
        (fun t => t.scope ≠ ToolScope.builtin)) = [] := by decide
    rw [h0, List.nil_append]
    have hmaps : (((nonBuiltinTools civ.registry).map
        (fun d => (d.id, d))).map (fun p => p.2)) =
        nonBuiltinTools civ.registry := by
      induction nonBuiltinTools civ.registry with
      | nil => rfl
      | cons a l ih => simp only [List.map_cons, ih]
    rw [hmaps]
    refine List.filter_eq_self.mpr ?_
    intro t ht
    rw [nonBuiltinTools_tools] at ht
    exact (List.mem_filter.mp ht).2

/-- Witness for C9: the demo civilization (two agents with knowledge, one
alliance, one custom shared tool) survives its save/load round trip. -/
theorem c9_witness :
    (Civilization.load persistDemoCiv.max_agents
      persistDemoCiv.max_agent_depth persistDemoCiv.save).agents =
      persistDemoCiv.agents ∧
    (Civilization.load persistDemoCiv.max_agents
      persistDemoCiv.max_agent_depth persistDemoCiv.save).alliances =
      persistDemoCiv.alliances ∧
    nonBuiltinTools (Civilization.load persistDemoCiv.max_agents
      persistDemoCiv.max_agent_depth persistDemoCiv.save).registry =
      nonBuiltinTools persistDemoCiv.registry :=
  c9_save_load_round_trip persistDemoCiv (by decide) (by decide) (by decide)
    (by decide) (by decide) (by decide) (by decide) (by decide)

/-! ## C8 — skeleton extraction -/

section SkeletonProofs

open ToolificationEngine

theorem isDecimal_chars {v : List Char} (h : isDecimal v = true) :
    ∀ c ∈ v, c.isDigit = true ∨ c = '.' := by
  intro c hc
  unfold isDecimal at h
  rw [Bool.and_eq_true] at h
  obtain ⟨-, h2⟩ := h
  rw [← List.takeWhile_append_dropWhile Char.isDigit v] at hc
  rcases List.mem_append.mp hc with htk | hdr
  · exact Or.inl (List.mem_takeWhile_imp htk)
  · rcases hrest : v.dropWhile Char.isDigit with _ | ⟨c0, rest0⟩
    · rw [hrest] at hdr
      cases hdr
    · rw [hrest] at hdr h2
      rw [Bool.or_eq_true] at h2
      rcases h2 with h2 | h2
      · rw [decide_eq_true_eq] at h2
        cases h2
      · rw [Bool.and_eq_true, Bool.and_eq_true] at h2
        obtain ⟨⟨ha, -⟩, hall⟩ := h2
        rw [decide_eq_true_eq] at ha
        have hc0 : c0 = '.' := by simpa using ha
        rcases List.mem_cons.mp hdr with h | h
        · exact Or.inr (h.trans hc0)
        · refine Or.inl ?_
          have := List.all_eq_true.mp hall c (by simpa using h)
          simpa using this

theorem subQuoteAux_pass (q : Char) (ph : List Char) (s : List Char)
    (hs : ∀ c ∈ s, ¬ c = q) (rest : List Char) :
    subQuoteAux q ph none (s ++ rest) = s ++ subQuoteAux q ph none rest := by
  induction s with
  | nil => rfl
  | cons c s' ih =>
    simp only [List.cons_append, subQuoteAux, List.append_eq,
      if_neg (hs c (List.mem_cons_self c s'))]
    rw [ih (fun x hx => hs x (List.mem_cons_of_mem _ hx))]

theorem subQuoteAux_inside (q : Char) (ph : List Char) (c : List Char)
    (hc : ∀ x ∈ c, ¬ x = q) (rest : List Char) :
    ∀ acc, subQuoteAux q ph (some acc) (c ++ q :: rest) =
      (q :: ph ++ [q]) ++ subQuoteAux q ph none rest := by
  induction c with
  | nil => intro acc; simp [subQuoteAux]
  | cons x c' ih =>
    intro acc
    simp only [List.cons_append, subQuoteAux, List.append_eq,
      if_neg (hc x (List.mem_cons_self x c'))]
    exact ih (fun y hy => hc y (List.mem_cons_of_mem _ hy)) _

theorem subQuoteAux_lit (q : Char) (ph : List Char) (c : List Char)
    (hc : ∀ x ∈ c, ¬ x = q) (rest : List Char) :
    subQuoteAux q ph none (q :: (c ++ q :: rest)) =
      (q :: ph ++ [q]) ++ subQuoteAux q ph none rest := by
  simp only [subQuoteAux, if_pos rfl]
  exact subQuoteAux_inside q ph c hc rest []

theorem quoteFree_chars {s : List Char} (h : quoteFree s = true) :
    ∀ c ∈ s, ¬ c = '"' ∧ ¬ c = '\'' := by
  intro c hc
  have := List.all_eq_true.mp h c hc
  rw [Bool.and_eq_true, decide_eq_true_eq, decide_eq_true_eq] at this
  exact this

theorem digit_not_quote {c : Char} (h : c.isDigit = true) :
    ¬ c = '"' ∧ ¬ c = '\'' := by
  constructor <;> intro hc <;> rw [hc] at h <;> cases h

theorem fragWf_items : ∀ (T : List FragItem) (prev : Option Char),
    fragWf prev T = true → ∀ i ∈ T, itemBasicOk i := by
  intro T
  induction T with
  | nil => intro prev _ i hi; cases hi
  | cons j T' ih =>
    intro prev h i hi
    cases j with
    | chunk s =>
      rw [fragWf, Bool.and_eq_true, Bool.and_eq_true] at h
      rcases List.mem_cons.mp hi with rfl | hi'
      · exact ⟨h.1.1, h.1.2⟩
      · exact ih _ h.2 i hi'
    | dstr c =>
      rw [fragWf, Bool.and_eq_true] at h
      rcases List.mem_cons.mp hi with rfl | hi'
      · exact h.1
      · exact ih _ h.2 i hi'
    | sstr c =>
      rw [fragWf, Bool.and_eq_true] at h
      rcases List.mem_cons.mp hi with rfl | hi'
      · exact h.1
      · exact ih _ h.2 i hi'
    | num v =>
      rw [fragWf, Bool.and_eq_true, Bool.and_eq_true, Bool.and_eq_true] at h
      rcases List.mem_cons.mp hi with rfl | hi'
      · exact h.1.1.1
      · exact ih _ h.2 i hi'

theorem pass1_render : ∀ T : List FragItem, (∀ i ∈ T, itemBasicOk i) →
    subQuoteAux '"' "<STR>".data none ((T.map FragItem.render).flatten) =
      (T.map FragItem.render1).flatten := by
  intro T
  induction T with
  | nil => intro _; rfl
  | cons i T' ih =>
    intro h
    have hi := h i (List.mem_cons_self i T')
    have hT' := fun j hj => h j (List.mem_cons_of_mem _ hj)
    cases i with
    | chunk s =>
      simp only [List.map_cons, List.flatten_cons, FragItem.render,
        FragItem.render1]
      rw [subQuoteAux_pass _ _ s
        (fun c hc => (quoteFree_chars hi.1 c hc).1) _, ih hT']
    | dstr c =>
      simp only [List.map_cons, List.flatten_cons, FragItem.render,
        FragItem.render1]
      have hre : ('"' :: c ++ ['"']) ++ (T'.map FragItem.render).flatten =
          '"' :: (c ++ '"' :: (T'.map FragItem.render).flatten) := by
        simp
      rw [hre, subQuoteAux_lit _ _ c
        (fun x hx => (quoteFree_chars hi x hx).1) _, ih hT']
      simp
    | sstr c =>
      simp only [List.map_cons, List.flatten_cons, FragItem.render,
        FragItem.render1]
      have hfree : ∀ x ∈ '\'' :: c ++ ['\''], ¬ x = '"' := by
        intro x hx
        rcases List.mem_cons.mp hx with rfl | hx'
        · decide
        · rcases List.mem_append.mp hx' with hx'' | hx''
          · exact (quoteFree_chars hi x hx'').1
          · rcases List.mem_singleton.mp hx'' with rfl
            decide
      rw [subQuoteAux_pass _ _ _ hfree _, ih hT']
    | num v =>
      simp only [List.map_cons, List.flatten_cons, FragItem.render,
        FragItem.render1]
      have hfree : ∀ x ∈ v, ¬ x = '"' := by
        intro x hx
        rcases isDecimal_chars hi x hx with hd | rfl
        · exact (digit_not_quote hd).1
        · decide
      rw [subQuoteAux_pass _ _ _ hfree _, ih hT']

theorem pass2_render : ∀ T : List FragItem, (∀ i ∈ T, itemBasicOk i) →
    subQuoteAux '\'' "<STR>".data none ((T.map FragItem.render1).flatten) =
      (T.map FragItem.render2).flatten := by
  intro T
  induction T with
  | nil => intro _; rfl
  | cons i T' ih =>
    intro h
    have hi := h i (List.mem_cons_self i T')
    have hT' := fun j hj => h j (List.mem_cons_of_mem _ hj)
    cases i with
    | chunk s =>
      simp only [List.map_cons, List.flatten_cons, FragItem.render1,
        FragItem.render, FragItem.render2]
      rw [subQuoteAux_pass _ _ s
        (fun c hc => (quoteFree_chars hi.1 c hc).2) _, ih hT']
    | dstr c =>
      simp only [List.map_cons, List.flatten_cons, FragItem.render1,
        FragItem.render2]
      have hfree : ∀ x ∈ "\"<STR>\"".data, ¬ x = '\'' := by decide
      rw [subQuoteAux_pass _ _ _ hfree _, ih hT']
    | sstr c =>
      simp only [List.map_cons, List.flatten_cons, FragItem.render1,
        FragItem.render, FragItem.render2]
      have hre : ('\'' :: c ++ ['\'']) ++ (T'.map FragItem.render1).flatten =
          '\'' :: (c ++ '\'' :: (T'.map FragItem.render1).flatten) := by
        simp
      rw [hre, subQuoteAux_lit _ _ c
        (fun x hx => (quoteFree_chars hi x hx).2) _, ih hT']
      simp
    | num v =>
      simp only [List.map_cons, List.flatten_cons, FragItem.render1,
        FragItem.render, FragItem.render2]
      have hfree : ∀ x ∈ v, ¬ x = '\'' := by
        intro x hx
        rcases isDecimal_chars hi x hx with hd | rfl
        · exact (digit_not_quote hd).2
        · decide
      rw [subQuoteAux_pass _ _ _ hfree _, ih hT']

theorem digitFree_chars {s : List Char} (h : digitFree s = true) :
    ∀ c ∈ s, c.isDigit = false := by
  intro c hc
  have := List.all_eq_true.mp h c hc
  rwa [Bool.not_eq_true'] at this

theorem word_not_digit {c : Char} (h : isWordChar c = false) :
    c.isDigit = false := by
  unfold isWordChar at h
  rw [Bool.or_eq_false_iff, Bool.or_eq_false_iff] at h
  exact h.1.2

theorem subNumScan_pass (s : List Char) (hs : ∀ c ∈ s, c.isDigit = false) :
    ∀ (p : Option Char) (rest : List Char),
      subNumScan (.out p) (s ++ rest) =
        s ++ subNumScan (.out (lastOr s p)) rest := by
  induction s with
  | nil => intro p rest; rfl
  | cons c s' ih =>
    intro p rest
    have hc : ¬ c.isDigit = true := by
      rw [hs c (List.mem_cons_self c s')]
      exact Bool.false_ne_true
    simp only [List.cons_append, subNumScan, List.append_eq, if_neg hc]
    rw [ih (fun x hx => hs x (List.mem_cons_of_mem _ hx)) (some c) rest]
    rfl

theorem subNumScan_inInt_run (ds : List Char)
    (hds : ∀ c ∈ ds, c.isDigit = true) :
    ∀ (ok : Bool) (acc rest : List Char),
      subNumScan (.inInt ok acc) (ds ++ rest) =
        subNumScan (.inInt ok (ds.reverse ++ acc)) rest := by
  induction ds with
  | nil => intro ok acc rest; simp
  | cons d ds' ih =>
    intro ok acc rest
    simp only [List.cons_append, subNumScan, List.append_eq,
      if_pos (hds d (List.mem_cons_self d ds'))]
    rw [ih (fun x hx => hds x (List.mem_cons_of_mem _ hx)) ok (d :: acc) rest]
    simp

theorem subNumScan_inFrac_run (ds : List Char)
    (hds : ∀ c ∈ ds, c.isDigit = true) :
    ∀ (fs acc rest : List Char),
      subNumScan (.inFrac fs acc) (ds ++ rest) =
        subNumScan (.inFrac fs (ds.reverse ++ acc)) rest := by
  induction ds with
  | nil => intro fs acc rest; simp
  | cons d ds' ih =>
    intro fs acc rest
    simp only [List.cons_append, subNumScan, List.append_eq,
      if_pos (hds d (List.mem_cons_self d ds'))]
    rw [ih (fun x hx => hds x (List.mem_cons_of_mem _ hx)) fs (d :: acc) rest]
    simp

theorem isDecimal_shape {v : List Char} (h : isDecimal v = true) :
    (v ≠ [] ∧ ∀ c ∈ v, c.isDigit = true) ∨
    (∃ ds ds2, v = ds ++ '.' :: ds2 ∧ ds ≠ [] ∧ ds2 ≠ [] ∧
      (∀ c ∈ ds, c.isDigit = true) ∧ (∀ c ∈ ds2, c.isDigit = true)) := by
  unfold isDecimal at h
  rw [Bool.and_eq_true] at h
  obtain ⟨h1, h2⟩ := h
  rw [decide_eq_true_eq] at h1
  have hsplit := List.takeWhile_append_dropWhile Char.isDigit v
  have htk : ∀ c ∈ v.takeWhile Char.isDigit, c.isDigit = true :=
    fun c hc => List.mem_takeWhile_imp hc
  rcases hrest : v.dropWhile Char.isDigit with _ | ⟨c0, rest0⟩
  · left
    rw [hrest, List.append_nil] at hsplit
    refine ⟨?_, ?_⟩
    · rw [← hsplit]
      exact h1
    · rw [← hsplit]
      exact htk
  · right
    rw [hrest] at h2
    rw [Bool.or_eq_true] at h2
    rcases h2 with h2 | h2
    · rw [decide_eq_true_eq] at h2
      cases h2
    · rw [Bool.and_eq_true, Bool.and_eq_true] at h2
      obtain ⟨⟨ha, hb⟩, hall⟩ := h2
      rw [decide_eq_true_eq] at ha hb
      have hc0 : c0 = '.' := by simpa using ha
      refine ⟨v.takeWhile Char.isDigit, rest0, ?_, h1, ?_, htk, ?_⟩
      · rw [← hc0, ← hrest]
        exact hsplit.symm
      · intro hr0
        rw [hr0] at hb
        simp at hb
      · intro c hc
        have := List.all_eq_true.mp hall c (by simpa using hc)
        simpa using this

theorem subNumScan_out_notdigit {c : Char} (hc : c.isDigit = false)
    (p q : Option Char) (m : List Char) :
    subNumScan (.out p) (c :: m) = subNumScan (.out q) (c :: m) := by
  have hc' : ¬ c.isDigit = true := by rw [hc]; exact Bool.false_ne_true
  simp only [subNumScan, if_neg hc']

theorem subNumScan_match (v : List Char) (hv : isDecimal v = true)
    (p : Option Char) (hp : boundaryOk p = true) (m : List Char)
    (hm : m = [] ∨ ∃ c m', m = c :: m' ∧ isWordChar c = false ∧ ¬ c = '.') :
    subNumScan (.out p) (v ++ m) = numPH ++ subNumScan (.out (some '0')) m := by
  rcases isDecimal_shape hv with ⟨hne, hds⟩ | ⟨ds, ds2, rfl, hne, hne2, hds, hds2⟩
  · -- v is a plain digit run
    obtain ⟨d, ds', rfl⟩ : ∃ d ds', v = d :: ds' := by
      cases v with
      | nil => cases hne rfl
      | cons a b => exact ⟨a, b, rfl⟩
    have hd : d.isDigit = true := hds d (List.mem_cons_self d ds')
    simp only [List.cons_append, subNumScan, List.append_eq, if_pos hd, hp]
    rw [subNumScan_inInt_run ds'
      (fun x hx => hds x (List.mem_cons_of_mem _ hx)) true [d] m]
    rcases hm with rfl | ⟨c, m', rfl, hcw, hcd⟩
    · simp [subNumScan, numPH]
    · have hcdig : ¬ c.isDigit = true := by
        rw [word_not_digit hcw]; exact Bool.false_ne_true
      simp only [subNumScan, if_neg hcdig, if_neg hcd, hcw, Bool.not_false,
        Bool.and_true, if_pos rfl]
      simp [subNumScan, if_neg hcdig]
  · -- v = ds ++ '.' :: ds2
    obtain ⟨d, dsr, rfl⟩ : ∃ d dsr, ds = d :: dsr := by
      cases ds with
      | nil => cases hne rfl
      | cons a b => exact ⟨a, b, rfl⟩
    have hd : d.isDigit = true := hds d (List.mem_cons_self d dsr)
    have hassoc : ((d :: dsr) ++ '.' :: ds2) ++ m =
        d :: (dsr ++ ('.' :: (ds2 ++ m))) := by simp
    rw [hassoc]
    simp only [subNumScan, if_pos hd, hp]
    rw [subNumScan_inInt_run dsr
      (fun x hx => hds x (List.mem_cons_of_mem _ hx)) true [d]
      ('.' :: (ds2 ++ m))]
    have hdot_notdig : ¬ ('.' : Char).isDigit = true := by decide
    simp only [subNumScan, if_neg hdot_notdig, if_pos rfl]
    obtain ⟨d2, ds2r, rfl⟩ : ∃ d2 ds2r, ds2 = d2 :: ds2r := by
      cases ds2 with
      | nil => cases hne2 rfl
      | cons a b => exact ⟨a, b, rfl⟩
    have hd2 : d2.isDigit = true := hds2 d2 (List.mem_cons_self d2 ds2r)
    simp only [List.cons_append, subNumScan, List.append_eq, if_pos hd2]
    rw [subNumScan_inFrac_run ds2r
      (fun x hx => hds2 x (List.mem_cons_of_mem _ hx)) _ [d2] m]
    rcases hm with rfl | ⟨c, m', rfl, hcw, hcd⟩
    · simp [subNumScan, numPH]
    · have hcdig : ¬ c.isDigit = true := by
        rw [word_not_digit hcw]; exact Bool.false_ne_true
      simp only [subNumScan, if_neg hcdig, hcw, Bool.not_false, if_pos rfl]
      simp [subNumScan, if_neg hcdig]

theorem afterNumOk_head : ∀ (rest : List FragItem),
    afterNumOk rest = true →
    (rest.map FragItem.render2).flatten = [] ∨
    ∃ c m', (rest.map FragItem.render2).flatten = c :: m' ∧
      isWordChar c = false ∧ ¬ c = '.' := by
  intro rest
  induction rest with
  | nil => intro _; exact Or.inl rfl
  | cons i rest' ih =>
    intro h
    cases i with
    | chunk s =>
      cases s with
      | nil =>
        simp only [List.map_cons, List.flatten_cons, FragItem.render2,
          FragItem.render, List.nil_append]
        exact ih (by simpa [afterNumOk] using h)
      | cons c s' =>
        simp only [afterNumOk, Bool.and_eq_true, Bool.not_eq_true',
          decide_eq_true_eq] at h
        exact Or.inr ⟨c, s' ++ (rest'.map FragItem.render2).flatten,
          by simp [FragItem.render2, FragItem.render], h.1, h.2⟩
    | dstr c =>
      exact Or.inr ⟨'"', "<STR>\"".data ++ (rest'.map FragItem.render2).flatten,
        by simp [FragItem.render2], by decide, by decide⟩
    | sstr c =>
      exact Or.inr ⟨'\'', "<STR>'".data ++ (rest'.map FragItem.render2).flatten,
        by simp [FragItem.render2], by decide, by decide⟩
    | num v =>
      simp [afterNumOk] at h

theorem pass3_render : ∀ (T : List FragItem) (prev : Option Char),
    fragWf prev T = true →
    subNumScan (.out prev) ((T.map FragItem.render2).flatten) =
      (T.map FragItem.render3).flatten := by
  intro T
  induction T with
  | nil => intro prev _; rfl
  | cons i T' ih =>
    intro prev h
    cases i with
    | chunk s =>
      rw [fragWf, Bool.and_eq_true, Bool.and_eq_true] at h
      simp only [List.map_cons, List.flatten_cons, FragItem.render2,
        FragItem.render, FragItem.render3]
      rw [subNumScan_pass s (digitFree_chars h.1.2) prev _, ih _ h.2]
    | dstr c =>
      rw [fragWf, Bool.and_eq_true] at h
      simp only [List.map_cons, List.flatten_cons, FragItem.render2,
        FragItem.render3]
      rw [subNumScan_pass "\"<STR>\"".data (by decide) prev _]
      rw [show lastOr "\"<STR>\"".data prev = some '"' from rfl]
      rw [ih _ h.2]
    | sstr c =>
      rw [fragWf, Bool.and_eq_true] at h
      simp only [List.map_cons, List.flatten_cons, FragItem.render2,
        FragItem.render3]
      rw [subNumScan_pass "'<STR>'".data (by decide) prev _]
      rw [show lastOr "'<STR>'".data prev = some '\'' from rfl]
      rw [ih _ h.2]
    | num v =>
      rw [fragWf, Bool.and_eq_true, Bool.and_eq_true, Bool.and_eq_true] at h
      obtain ⟨⟨⟨hdec, hbound⟩, hafter⟩, hrest⟩ := h
      simp only [List.map_cons, List.flatten_cons, FragItem.render2,
        FragItem.render, FragItem.render3]
      rw [subNumScan_match v hdec prev hbound _ (afterNumOk_head T' hafter)]
      rw [ih _ hrest]
      rfl

theorem sameShape_render3 {T₁ T₂ : List FragItem} (h : SameShape T₁ T₂) :
    T₁.map FragItem.render3 = T₂.map FragItem.render3 := by
  induction h with
  | nil => rfl
  | chunk s h ih => simp [FragItem.render3, ih]
  | dstr c₁ c₂ h ih => simp [FragItem.render3, ih]
  | sstr c₁ c₂ h ih => simp [FragItem.render3, ih]
  | num v₁ v₂ h ih => simp [FragItem.render3, ih]

/-- C8 (amended): `_extract_skeleton` maps any two code fragments that are
instances of one well-formed template — shared digit-free, quote-free code
chunks around string literals with quote-free contents and plain decimal
numeric literals in word-boundary positions — to the same skeleton,
whichever literal contents each instance carries; both literal kinds are
normalized independently of the other's presence (a template may mix
them freely).  The counterexample shows the original unrestricted claim
fails for numeric literals in exponent notation. -/
theorem c8_skeleton_independent_of_literal_contents
    (T₁ T₂ : List FragItem) (hsh : SameShape T₁ T₂)
    (h1 : fragWf none T₁ = true) (h2 : fragWf none T₂ = true) :
    extract_skeleton (renderFrag T₁) = extract_skeleton (renderFrag T₂) := by
  have key : ∀ T : List FragItem, fragWf none T = true →
      sub_num (sub_quote '\'' "<STR>".data
        (sub_quote '"' "<STR>".data (renderFrag T))) =
        (T.map FragItem.render3).flatten := by
    intro T hT
    have hitems := fragWf_items T none hT
    unfold renderFrag sub_quote sub_num
    rw [pass1_render T hitems, pass2_render T hitems, pass3_render T none hT]
  unfold extract_skeleton
  rw [key T₁ h1, key T₂ h2, sameShape_render3 hsh]

/-- Counterexample to C8 as stated: `x = 1e3` and `x = 2e5` differ only in
one numeric literal (exponent-notation floats), yet the number regex
`\b\d+\.?\d*\b` matches neither (`1` is followed by the word character `e`),
so both fragments keep their digits and the skeletons differ. -/
theorem c8_exponent_literal_counterexample :
    extract_skeleton "x = 1e3".data = "x = 1e3".data ∧
    extract_skeleton "x = 2e5".data = "x = 2e5".data ∧
    extract_skeleton "x = 1e3".data ≠ extract_skeleton "x = 2e5".data := by
  decide

/-- Witness for C8: `load("a.csv", 5)` and `load("b.csv", 123)` — differing
in both a string literal and a numeric literal — produce the same
skeleton. -/
theorem c8_witness :
    SameShape skeletonDemoT1 skeletonDemoT2 ∧
    fragWf none skeletonDemoT1 = true ∧
    fragWf none skeletonDemoT2 = true ∧
    renderFrag skeletonDemoT1 = "load(\"a.csv\", 5)".data ∧
    renderFrag skeletonDemoT2 = "load(\"b.csv\", 123)".data ∧
    extract_skeleton (renderFrag skeletonDemoT1) =
      extract_skeleton (renderFrag skeletonDemoT2) := by
  have hsh : SameShape skeletonDemoT1 skeletonDemoT2 :=
    .chunk _ (.dstr _ _ (.chunk _ (.num _ _ (.chunk _ .nil))))
  exact ⟨hsh, by decide, by decide, by decide, by decide,
    c8_skeleton_independent_of_literal_contents _ _ hsh (by decide) (by decide)⟩

end SkeletonProofs

end AIvilization
